import Mathlib

/-!
Shallow embedding of the VeilCast backend (Rust) poll/commit/reveal core:
`src/backend/src/types.rs`, `src/backend/src/repo.rs`, `src/backend/src/zk.rs`
and the handlers in `src/backend/src/main.rs`.

Timestamps (`DateTime<Utc>`) are modelled as `Int` (unix-style, only ordering
is used).  `i64`/`i16` fields are `Int`; `u8` inputs are `Nat`.  The SHA-256
helper of the no-op proof backend and the identity-secret derivation are
external deterministic functions and are passed as parameters.
-/

namespace Veilcast

/-- `AppError` from `src/backend/src/error.rs`. -/
inductive AppError where
  | NotFound : AppError
  | Validation : String → AppError
  | Db : String → AppError
  | Io : String → AppError
deriving Repr, DecidableEq

/-- `AppError::Validation(_)` discriminator. -/
def AppError.isValidation : AppError → Bool
  | .Validation _ => true
  | _ => false

/-- `Phase` from `src/backend/src/types.rs`. -/
inductive Phase where
  | Commit : Phase
  | Reveal : Phase
  | Resolved : Phase
deriving Repr, DecidableEq

/-- `Phase::from_times` (`src/backend/src/types.rs:13-27`). -/
def Phase.fromTimes (now commit_end reveal_end : Int) (resolved : Bool) : Phase :=
  if resolved || reveal_end ≤ now then Phase.Resolved
  else if commit_end ≤ now then Phase.Reveal
  else Phase.Commit

/-- `PollRecord` (`src/backend/src/repo.rs:56-70`). -/
structure PollRecord where
  id : Int
  question : String
  options : List String
  commit_phase_end : Int
  reveal_phase_end : Int
  category : String
  membership_root : String
  owner : String
  reveal_tx_hash : String
  correct_option : Option Int
  resolved : Bool
  commit_sync_completed : Bool
  vote_counts : List Int
deriving Repr, DecidableEq

/-- `UserStatsRecord` (`src/backend/src/repo.rs:73-80`). -/
structure UserStatsRecord where
  identity_secret : String
  username : String
  xp : Int
  total_votes : Int
  correct_votes : Int
  tier : String
deriving Repr, DecidableEq

/-- `NewPoll` (`src/backend/src/repo.rs:83-91`). -/
structure NewPoll where
  question : String
  options : List String
  commit_phase_end : Int
  reveal_phase_end : Int
  membership_root : String
  category : String
  owner : String
deriving Repr, DecidableEq

/-- `StoredCommit` (`src/backend/src/repo.rs:94-103`); `choice` is the `i16`. -/
structure StoredCommit where
  poll_id : Int
  choice : Int
  commitment : String
  identity_secret : String
  secret : String
  nullifier : String
  proof : String
  public_inputs : List String
deriving Repr, DecidableEq

/-- `StoredCommitRecord` (`src/backend/src/repo.rs:106-117`). -/
structure StoredCommitRecord where
  id : Int
  poll_id : Int
  choice : Int
  commitment : String
  identity_secret : String
  secret : String
  recorded_at : Int
  nullifier : String
  proof : String
  public_inputs : List String
deriving Repr, DecidableEq

/-- `StoredVote` (`src/backend/src/repo.rs:120-124`); `choice` is the `u8`. -/
structure StoredVote where
  poll_id : Int
  nullifier : String
  choice : Nat
deriving Repr, DecidableEq

/-- `StoredVoteRecord` (`src/backend/src/repo.rs:127-131`). -/
structure StoredVoteRecord where
  poll_id : Int
  nullifier : String
  recorded_at : Int
deriving Repr, DecidableEq

/-- `CommitSyncRow` (`src/backend/src/repo.rs:134-143`). -/
structure CommitSyncRow where
  id : Int
  poll_id : Int
  choice : Int
  commitment : String
  secret : String
  nullifier : String
  proof : String
  public_inputs : List String
deriving Repr, DecidableEq

/-- XP constant `XP_CORRECT` (`src/backend/src/repo.rs:20`). -/
def XP_CORRECT : Int := 20

/-- XP constant `XP_PARTICIPATION` (`src/backend/src/repo.rs:21`). -/
def XP_PARTICIPATION : Int := 5

/-- `tier_for_xp` (`src/backend/src/repo.rs:43-53`). -/
def tier_for_xp (xp : Int) : String :=
  if 1500 ≤ xp then "Mythic Prophet"
  else if 900 ≤ xp then "Master Oracle"
  else if 600 ≤ xp then "Gold Seer"
  else if 350 ≤ xp then "Silver Sage"
  else if 150 ≤ xp then "Bronze Adept"
  else if 50 ≤ xp then "Apprentice"
  else "Seedling"

/-- Default `UserStatsRecord` minted by `or_insert` in
`InMemoryStore::add_member` / `bump_user_stats_local` (`src/backend/src/repo.rs:1147-1171`). -/
def defaultStats (identity_secret : String) : UserStatsRecord :=
  { identity_secret := identity_secret
    username := identity_secret
    xp := 0
    total_votes := 0
    correct_votes := 0
    tier := tier_for_xp 0 }

/-- `InMemoryStore` (`src/backend/src/repo.rs:1108-1120`).  The `HashMap`s are
modelled as association lists (insertion order), the `HashSet` of synced
commit ids as a `List Int`. -/
structure InMemoryStore where
  polls : List (Int × PollRecord)
  commits : List StoredCommitRecord
  votes : List StoredVoteRecord
  members : List String
  poll_members : List (Int × List String)
  vote_nullifiers : List (Int × String)
  commits_by_identity : List (Int × String)
  synced_commits : List Int
  commit_seq : Int
  poll_secrets : List ((Int × String) × String)
  user_stats : List (String × UserStatsRecord)
deriving Repr, DecidableEq

/-- `InMemoryStore::default` (`src/backend/src/repo.rs:1122-1138`). -/
def emptyStore : InMemoryStore :=
  { polls := []
    commits := []
    votes := []
    members := []
    poll_members := []
    vote_nullifiers := []
    commits_by_identity := []
    synced_commits := []
    commit_seq := 0
    poll_secrets := []
    user_stats := [] }

/-- `HashMap::get` on the polls map: first entry with the key. -/
def pollsLookup : List (Int × PollRecord) → Int → Option PollRecord
  | [], _ => none
  | (k, p) :: rest, pid => if k = pid then some p else pollsLookup rest pid

/-- `HashMap::get_mut` followed by a field update: rewrite the entry in place. -/
def pollsModify (l : List (Int × PollRecord)) (pid : Int) (f : PollRecord → PollRecord) :
    List (Int × PollRecord) :=
  l.map (fun kp => if kp.1 = pid then (kp.1, f kp.2) else kp)

/-- `HashMap::insert` on the polls map: replace the entry if present, else append. -/
def pollsInsert (l : List (Int × PollRecord)) (pid : Int) (p : PollRecord) :
    List (Int × PollRecord) :=
  if (pollsLookup l pid).isSome then pollsModify l pid (fun _ => p) else l ++ [(pid, p)]

/-- Lookup in the `user_stats` map. -/
def statsLookup : List (String × UserStatsRecord) → String → Option UserStatsRecord
  | [], _ => none
  | (k, v) :: rest, i => if k = i then some v else statsLookup rest i

/-- `HashMap::insert` on the `user_stats` map: replace the entry holding the
key if present, else append. -/
def statsInsert : List (String × UserStatsRecord) → String → UserStatsRecord →
    List (String × UserStatsRecord)
  | [], i, v => [(i, v)]
  | kv :: rest, i, v => if kv.1 = i then (kv.1, v) :: rest else kv :: statsInsert rest i v

/-- `InMemoryStore::record_commit` (`src/backend/src/repo.rs:1263-1296`).
Returns the (possibly updated) store together with the result; `now` stands
for `Utc::now()`. -/
def InMemoryStore.record_commit (st : InMemoryStore) (c : StoredCommit) (now : Int) :
    InMemoryStore × Except AppError StoredCommitRecord :=
  if st.commits.any (fun r =>
      decide (r.poll_id = c.poll_id) && decide (r.identity_secret = c.identity_secret)) then
    (st, Except.error (AppError.Validation ("already committed for this poll")))
  else
    let rec0 : StoredCommitRecord :=
      { id := st.commit_seq
        poll_id := c.poll_id
        choice := c.choice
        commitment := c.commitment
        identity_secret := c.identity_secret
        secret := c.secret
        recorded_at := now
        nullifier := c.nullifier
        proof := c.proof
        public_inputs := c.public_inputs }
    let byId := (c.poll_id, c.identity_secret)
    ({ st with
        commit_seq := st.commit_seq + 1
        commits := st.commits ++ [rec0]
        commits_by_identity :=
          if st.commits_by_identity.contains byId
          then st.commits_by_identity
          else st.commits_by_identity ++ [byId] },
     Except.ok rec0)

/-- The vote-count bump performed inside `InMemoryStore::record_vote`
(`src/backend/src/repo.rs:1315-1326`): grow `vote_counts` to `options.len()`
if shorter, then increment index `choice` when in range. -/
def bumpVoteCount (p : PollRecord) (choice : Nat) : PollRecord :=
  let vc :=
    if p.vote_counts.length < p.options.length
    then p.vote_counts ++ List.replicate (p.options.length - p.vote_counts.length) 0
    else p.vote_counts
  if choice < vc.length
  then { p with vote_counts := vc.set choice (vc.getD choice 0 + 1) }
  else { p with vote_counts := vc }

/-- `InMemoryStore::record_vote` (`src/backend/src/repo.rs:1298-1328`). -/
def InMemoryStore.record_vote (st : InMemoryStore) (v : StoredVote) (now : Int) :
    InMemoryStore × Except AppError StoredVoteRecord :=
  if st.vote_nullifiers.contains (v.poll_id, v.nullifier) then
    (st, Except.error (AppError.Validation ("nullifier already used")))
  else
    let rec0 : StoredVoteRecord :=
      { poll_id := v.poll_id, nullifier := v.nullifier, recorded_at := now }
    let st1 := { st with
      votes := st.votes ++ [rec0]
      vote_nullifiers := st.vote_nullifiers ++ [(v.poll_id, v.nullifier)] }
    let st2 := { st1 with polls := pollsModify st1.polls v.poll_id (bumpVoteCount · v.choice) }
    (st2, Except.ok rec0)

/-- `InMemoryStore::nullifier_used` (`src/backend/src/repo.rs:1376-1379`). -/
def InMemoryStore.nullifier_used (st : InMemoryStore) (pid : Int) (n : String) : Bool :=
  st.vote_nullifiers.contains (pid, n)

/-- `<InMemoryStore as PollIndexSink>::upsert_vote_from_chain`
(`src/backend/src/repo.rs:1572-1584`): pushes the vote unconditionally
(`_choice` ignored, no nullifier bookkeeping). -/
def InMemoryStore.upsert_vote_from_chain (st : InMemoryStore) (pid : Int) (n : String)
    (now : Int) : InMemoryStore :=
  { st with votes := st.votes ++ [{ poll_id := pid, nullifier := n, recorded_at := now }] }

/-- `<InMemoryStore as PollIndexSink>::upsert_poll_from_chain`
(`src/backend/src/repo.rs:1549-1570`): inserts a freshly built record
(resolved `false`, `correct_option` `None`) into the polls map, replacing any
existing record for that id. -/
def InMemoryStore.upsert_poll_from_chain (st : InMemoryStore) (pid : Int) (p : NewPoll) :
    InMemoryStore :=
  let record : PollRecord :=
    { id := pid
      question := p.question
      options := p.options
      commit_phase_end := p.commit_phase_end
      reveal_phase_end := p.reveal_phase_end
      category := p.category
      membership_root := p.membership_root
      owner := p.owner
      reveal_tx_hash := ""
      correct_option := none
      resolved := false
      commit_sync_completed := false
      vote_counts := List.replicate p.options.length 0 }
  { st with polls := pollsInsert st.polls pid record }

/-- `InMemoryStore::create_poll_with_id` (`src/backend/src/repo.rs:1222-1248`). -/
def InMemoryStore.create_poll_with_id (st : InMemoryStore) (pid : Int) (p : NewPoll)
    (membership_root : String) (members : List String) : InMemoryStore × PollRecord :=
  let record : PollRecord :=
    { id := pid
      question := p.question
      options := p.options
      commit_phase_end := p.commit_phase_end
      reveal_phase_end := p.reveal_phase_end
      category := p.category
      membership_root := membership_root
      owner := p.owner
      reveal_tx_hash := ""
      correct_option := none
      resolved := false
      commit_sync_completed := false
      vote_counts := List.replicate p.options.length 0 }
  let pm :=
    if (st.poll_members.any (fun kp => decide (kp.1 = pid)))
    then st.poll_members.map (fun kp => if kp.1 = pid then (kp.1, members) else kp)
    else st.poll_members ++ [(pid, members)]
  ({ st with polls := pollsInsert st.polls pid record, poll_members := pm }, record)

/-- `InMemoryStore::bump_user_stats_local` (`src/backend/src/repo.rs:1160-1182`). -/
def bumpUserStatsLocal (stats : List (String × UserStatsRecord)) (identity_secret : String)
    (correct : Bool) : List (String × UserStatsRecord) :=
  let base := (statsLookup stats identity_secret).getD (defaultStats identity_secret)
  let e1 := { base with
    total_votes := base.total_votes + 1
    correct_votes := base.correct_votes + (if correct then 1 else 0)
    xp := base.xp + (if correct then XP_CORRECT else XP_PARTICIPATION) }
  let e2 := { e1 with tier := tier_for_xp e1.xp }
  statsInsert stats identity_secret e2

/-- `commit.choice as u8 == correct_option` (`src/backend/src/repo.rs:1206`):
the `i16` choice is truncated to its low 8 bits and compared with the `u8`
correct option. -/
def choiceMatches (choice : Int) (correct_option : Nat) : Bool :=
  decide (Int.emod choice 256 = (correct_option : Int))

/-- The `vote_counts` recomputation inside `InMemoryStore::finalize_poll_results`
(`src/backend/src/repo.rs:1193-1204`): reset to zeros and count commitments
whose `choice as usize` falls inside the options range (a negative `i16`
reinterpreted as `usize` is huge and never in range). -/
def recountVotes (p : PollRecord) (commits : List StoredCommitRecord) : PollRecord :=
  let vc0 : List Int := List.replicate p.options.length 0
  let vc := commits.foldl
    (fun vc cm =>
      if 0 ≤ cm.choice ∧ cm.choice.toNat < vc.length
      then vc.set cm.choice.toNat (vc.getD cm.choice.toNat 0 + 1)
      else vc)
    vc0
  { p with vote_counts := vc }

/-- `InMemoryStore::finalize_poll_results` (`src/backend/src/repo.rs:1184-1211`). -/
def finalizePollResults (st : InMemoryStore) (pid : Int) (correct_option : Nat) :
    InMemoryStore :=
  let commits := st.commits.filter (fun c => decide (c.poll_id = pid))
  let st1 := { st with polls := pollsModify st.polls pid (recountVotes · commits) }
  { st1 with
    user_stats := commits.foldl
      (fun stats cm => bumpUserStatsLocal stats cm.identity_secret
        (choiceMatches cm.choice correct_option))
      st1.user_stats }

/-- `InMemoryStore::resolve_poll` (`src/backend/src/repo.rs:1397-1407`). -/
def InMemoryStore.resolve_poll (st : InMemoryStore) (pid : Int) (correct_option : Nat) :
    InMemoryStore × Except AppError PollRecord :=
  match pollsLookup st.polls pid with
  | none => (st, Except.error AppError.NotFound)
  | some _ =>
    let upd := fun (p : PollRecord) =>
      { p with resolved := true, correct_option := some (correct_option : Int) }
    let st1 := { st with polls := pollsModify st.polls pid upd }
    let st2 := finalizePollResults st1 pid correct_option
    match pollsLookup st2.polls pid with
    | some p => (st2, Except.ok p)
    | none => (st2, Except.error AppError.NotFound)

/-- `<InMemoryStore as PollIndexSink>::resolve_poll_from_chain`
(`src/backend/src/repo.rs:1586-1596`). -/
def InMemoryStore.resolve_poll_from_chain (st : InMemoryStore) (pid : Int)
    (correct_option : Nat) : InMemoryStore :=
  let upd := fun (p : PollRecord) =>
    { p with resolved := true, correct_option := some (correct_option : Int) }
  let st1 := { st with polls := pollsModify st.polls pid upd }
  finalizePollResults st1 pid correct_option

/-- Row of the Postgres `polls` table as read back by `DbPoll`
(`src/backend/src/repo.rs:1020-1034`). -/
structure PgPollRow where
  id : Int
  question : String
  options : List String
  commit_phase_end : Int
  reveal_phase_end : Int
  category : String
  membership_root : String
  owner : String
  reveal_tx_hash : String
  correct_option : Option Int
  resolved : Bool
  commit_sync_completed : Bool
deriving Repr, DecidableEq

/-- Row of the Postgres `votes` table (`src/backend/src/repo.rs:1854-1860`). -/
structure PgVoteRow where
  poll_id : Int
  nullifier : String
  choice : Int
  recorded_at : Int
deriving Repr, DecidableEq

/-- Relational state of `PgStore`: the tables touched by the claims, with the
unique indexes `commitments_poll_identity_idx` on `(poll_id, identity_secret)`
(`src/backend/src/repo.rs:1843-1850`) and `votes_poll_nullifier_idx` on
`(poll_id, nullifier)` (`src/backend/src/repo.rs:1867-1874`) enforced by the
insert operations below.  `commit_seq` models the `SERIAL` id column. -/
structure PgState where
  polls : List PgPollRow
  commitments : List StoredCommitRecord
  votes : List PgVoteRow
  commit_seq : Int
deriving Repr, DecidableEq

/-- First `polls` row with the given id (primary key, so at most one). -/
def pgLookupPoll (st : PgState) (pid : Int) : Option PgPollRow :=
  st.polls.find? (fun r => decide (r.id = pid))

/-- The Postgres unique-violation message surfaced for a duplicate
`(poll_id, identity_secret)` insert into `commitments`. -/
def dbDupCommitMsg : String :=
  "duplicate key value violates unique constraint commitments_poll_identity_idx"

/-- `PgStore::record_commit` (`src/backend/src/repo.rs:561-581`): a plain
`INSERT` into `commitments`; a duplicate `(poll_id, identity_secret)` violates
the unique index `commitments_poll_identity_idx` and the resulting `sqlx`
error is wrapped by `map_err(AppError::Db)` — it is a `Db` error, not a
`Validation` error. -/
def pgRecordCommit (st : PgState) (c : StoredCommit) (now : Int) :
    PgState × Except AppError StoredCommitRecord :=
  if st.commitments.any (fun r =>
      decide (r.poll_id = c.poll_id) && decide (r.identity_secret = c.identity_secret)) then
    (st, Except.error (AppError.Db dbDupCommitMsg))
  else
    let rec0 : StoredCommitRecord :=
      { id := st.commit_seq
        poll_id := c.poll_id
        choice := c.choice
        commitment := c.commitment
        identity_secret := c.identity_secret
        secret := c.secret
        recorded_at := now
        nullifier := c.nullifier
        proof := c.proof
        public_inputs := c.public_inputs }
    ({ st with commit_seq := st.commit_seq + 1, commitments := st.commitments ++ [rec0] },
     Except.ok rec0)

/-- `PgStore::nullifier_used` (`src/backend/src/repo.rs:672-684`). -/
def pgNullifierUsed (st : PgState) (pid : Int) (n : String) : Bool :=
  st.votes.any (fun v => decide (v.poll_id = pid) && decide (v.nullifier = n))

/-- `PgStore::record_vote` (`src/backend/src/repo.rs:583-601`): explicit
`nullifier_used` check returning `Validation`, then an `INSERT` into `votes`. -/
def pgRecordVote (st : PgState) (v : StoredVote) (now : Int) :
    PgState × Except AppError StoredVoteRecord :=
  if pgNullifierUsed st v.poll_id v.nullifier then
    (st, Except.error (AppError.Validation ("nullifier already used")))
  else
    ({ st with votes := st.votes ++
        [{ poll_id := v.poll_id, nullifier := v.nullifier, choice := (v.choice : Int),
           recorded_at := now }] },
     Except.ok { poll_id := v.poll_id, nullifier := v.nullifier, recorded_at := now })

/-- `<PgStore as PollIndexSink>::upsert_vote_from_chain`
(`src/backend/src/repo.rs:980-1000`): `INSERT ... ON CONFLICT (poll_id,
nullifier) DO NOTHING`. -/
def pgUpsertVoteFromChain (st : PgState) (pid : Int) (n : String) (choice : Nat)
    (now : Int) : PgState :=
  if pgNullifierUsed st pid n then st
  else { st with votes := st.votes ++
    [{ poll_id := pid, nullifier := n, choice := (choice : Int), recorded_at := now }] }

/-- `<PgStore as PollIndexSink>::upsert_poll_from_chain`
(`src/backend/src/repo.rs:952-978`): `INSERT ... ON CONFLICT (id) DO UPDATE`
overwriting only `question`, `options`, `commit_phase_end`,
`reveal_phase_end`, `membership_root` and `category`; `resolved` and
`correct_option` are untouched on conflict, and a fresh insert starts with
`resolved = false`. -/
def pgUpsertPollFromChain (st : PgState) (pid : Int) (p : NewPoll) : PgState :=
  if (pgLookupPoll st pid).isSome then
    { st with polls := st.polls.map (fun r =>
        if r.id = pid then
          { r with
            question := p.question
            options := p.options
            commit_phase_end := p.commit_phase_end
            reveal_phase_end := p.reveal_phase_end
            membership_root := p.membership_root
            category := p.category }
        else r) }
  else
    { st with polls := st.polls ++
      [{ id := pid
         question := p.question
         options := p.options
         commit_phase_end := p.commit_phase_end
         reveal_phase_end := p.reveal_phase_end
         category := p.category
         membership_root := p.membership_root
         owner := p.owner
         reveal_tx_hash := ""
         correct_option := none
         resolved := false
         commit_sync_completed := false }] }

/-- `ProofRequest` (`src/backend/src/zk.rs:16-22`); `choice` is the `u8`. -/
structure ProofRequest where
  poll_id : Int
  choice : Nat
  secret : String
  identity_secret : String
  membership_root : String
deriving Repr, DecidableEq

/-- `ProofBundle` (`src/backend/src/zk.rs:8-13`). -/
structure ProofBundle where
  proof : String
  public_inputs : List String
  commitment : String
  nullifier : String
deriving Repr, DecidableEq

/-- `<NoopZkBackend as ZkBackend>::prove` (`src/backend/src/zk.rs:36-56`),
with the SHA-256 hex digest `hex_sha256` abstracted as the parameter `h`
(it is the external `sha2` library; only its application structure matters). -/
def noopProve (h : String → String) (req : ProofRequest) : Except AppError ProofBundle :=
  if 1 < req.choice then
    Except.error (AppError.Validation ("choice must be 0 or 1"))
  else
    let commitment := h (toString req.choice ++ ":" ++ req.secret)
    let nullifier := h (req.identity_secret ++ ":" ++ toString req.poll_id)
    let proof := h (toString req.poll_id ++ ":" ++ req.membership_root ++ ":" ++
      commitment ++ ":" ++ nullifier)
    Except.ok
      { proof := proof
        public_inputs := [toString req.choice, commitment, nullifier]
        commitment := commitment
        nullifier := nullifier }

/-- `ProveRequest` body (`src/backend/src/types.rs:64-68`). -/
structure ProveRequest where
  choice : Nat
  secret : String
  identity_secret : String
deriving Repr, DecidableEq

/-- The `generate_proof` handler (`src/backend/src/main.rs:684-707`) over the
in-memory store and the no-op backend: load the poll, reject when
`now >= reveal_phase_end`, then delegate to `NoopZkBackend::prove`. -/
def generate_proof_handler (h : String → String) (st : InMemoryStore) (pid now : Int)
    (body : ProveRequest) : Except AppError ProofBundle :=
  match pollsLookup st.polls pid with
  | none => Except.error AppError.NotFound
  | some poll =>
    if poll.reveal_phase_end ≤ now then
      Except.error (AppError.Validation ("poll already resolved"))
    else
      noopProve h
        { poll_id := pid
          choice := body.choice
          secret := body.secret
          identity_secret := body.identity_secret
          membership_root := poll.membership_root }

/-- `CommitRequest` body as consumed by the `record_commit` handler
(`src/backend/src/main.rs:607-682`). -/
structure CommitRequest where
  choice : Nat
  secret : String
  commitment : String
  nullifier : String
  proof : String
  public_inputs : List String
deriving Repr, DecidableEq

/-- `InMemoryStore::get_or_create_secret` (`src/backend/src/repo.rs:1386-1395`);
`freshSecret` stands for the random `generate_secret()` mint. -/
def InMemoryStore.get_or_create_secret (st : InMemoryStore) (pid : Int)
    (identity_secret : String) (freshSecret : String) : InMemoryStore × String :=
  match st.poll_secrets.find? (fun kv => decide (kv.1 = (pid, identity_secret))) with
  | some kv => (st, kv.2)
  | none =>
    ({ st with poll_secrets := st.poll_secrets ++ [((pid, identity_secret), freshSecret)] },
     freshSecret)

/-- `InMemoryStore::poll_includes_member` (`src/backend/src/repo.rs:1367-1374`). -/
def InMemoryStore.poll_includes_member (st : InMemoryStore) (pid : Int)
    (identity_secret : String) : Bool :=
  match st.poll_members.find? (fun kv => decide (kv.1 = pid)) with
  | some kv => kv.2.contains identity_secret
  | none => false

/-- The `record_commit` handler (`src/backend/src/main.rs:607-682`) over the
in-memory store.  `deriveId` abstracts `derive_identity_secret` (SHA-256 of
salt+username, an external deterministic function), `freshSecret` the random
per-poll secret mint, `now` the `Utc::now()` reads.  The store is returned in
every branch (a failure after `get_or_create_secret` keeps the minted
secret, as in the source); note that the phase gate is only the time check
`now >= poll.commit_phase_end` — the `resolved` flag is never consulted. -/
def record_commit_handler (deriveId : String → String) (freshSecret : String)
    (st : InMemoryStore) (pid now : Int) (username : Option String) (body : CommitRequest) :
    InMemoryStore × Except AppError StoredCommitRecord :=
  match pollsLookup st.polls pid with
  | none => (st, Except.error AppError.NotFound)
  | some poll =>
    if poll.commit_phase_end ≤ now then
      (st, Except.error (AppError.Validation ("commit phase over")))
    else if poll.options.length ≤ body.choice then
      (st, Except.error (AppError.Validation ("invalid choice")))
    else
      match username with
      | none => (st, Except.error (AppError.Validation ("missing auth header")))
      | some u =>
        let identity := deriveId u
        let s1 := st.get_or_create_secret pid identity freshSecret
        if body.secret ≠ s1.2 then
          (s1.1, Except.error (AppError.Validation ("secret mismatch")))
        else if ¬ s1.1.poll_includes_member pid identity then
          (s1.1, Except.error (AppError.Validation ("not a member of this poll")))
        else
          s1.1.record_commit
            { poll_id := pid
              choice := (body.choice : Int)
              commitment := body.commitment
              identity_secret := identity
              secret := body.secret
              nullifier := body.nullifier
              proof := body.proof
              public_inputs := body.public_inputs } now

/-- The `resolve_poll` handler (`src/backend/src/main.rs:746-777`) over the
in-memory store: auth header, owner, not-yet-resolved, reveal-phase-over and
option-range checks in source order, then `PollStore::resolve_poll`. -/
def resolve_poll_handler (st : InMemoryStore) (pid now : Int) (username : Option String)
    (correct_option : Nat) : InMemoryStore × Except AppError PollRecord :=
  match username with
  | none => (st, Except.error (AppError.Validation ("missing auth header")))
  | some u =>
    match pollsLookup st.polls pid with
    | none => (st, Except.error AppError.NotFound)
    | some poll =>
      if poll.owner ≠ u then
        (st, Except.error (AppError.Validation ("not poll owner")))
      else if poll.resolved then
        (st, Except.error (AppError.Validation ("poll already resolved")))
      else if now < poll.reveal_phase_end then
        (st, Except.error (AppError.Validation ("cannot resolve before reveal phase ends")))
      else if poll.options.length ≤ correct_option then
        (st, Except.error (AppError.Validation ("invalid correct option")))
      else
        st.resolve_poll pid correct_option

/-- `REVEAL_BATCH_SIZE` (`src/backend/src/main.rs:276`). -/
def REVEAL_BATCH_SIZE : Nat := 20

/-- Eligibility filter of `InMemoryStore::commits_to_sync`
(`src/backend/src/repo.rs:1425-1426`): the commit's poll exists and
`commit_phase_end <= now && reveal_phase_end > now`. -/
def commitEligible (polls : List (Int × PollRecord)) (now : Int)
    (cm : StoredCommitRecord) : Bool :=
  match pollsLookup polls cm.poll_id with
  | some p => decide (p.commit_phase_end ≤ now) && decide (now < p.reveal_phase_end)
  | none => false

/-- Projection of a stored commitment to a `CommitSyncRow`
(`src/backend/src/repo.rs:1427-1436`). -/
def toSyncRow (cm : StoredCommitRecord) : CommitSyncRow :=
  { id := cm.id
    poll_id := cm.poll_id
    choice := cm.choice
    commitment := cm.commitment
    secret := cm.secret
    nullifier := cm.nullifier
    proof := cm.proof
    public_inputs := cm.public_inputs }

/-- Loop body of `InMemoryStore::commits_to_sync` (`src/backend/src/repo.rs:1417-1440`):
walk the commits vector in order, stop once `limit` rows are collected, skip
synced ids, keep eligible ones.  `cnt` is `items.len()` so far. -/
def commitsToSyncAux (polls : List (Int × PollRecord)) (synced : List Int)
    (now limit : Int) : List StoredCommitRecord → Int → List CommitSyncRow
  | [], _ => []
  | cm :: rest, cnt =>
    if limit ≤ cnt then []
    else if synced.contains cm.id then commitsToSyncAux polls synced now limit rest cnt
    else if commitEligible polls now cm then
      toSyncRow cm :: commitsToSyncAux polls synced now limit rest (cnt + 1)
    else commitsToSyncAux polls synced now limit rest cnt

/-- `InMemoryStore::commits_to_sync` (`src/backend/src/repo.rs:1409-1441`). -/
def InMemoryStore.commits_to_sync (st : InMemoryStore) (now limit : Int) :
    List CommitSyncRow :=
  commitsToSyncAux st.polls st.synced_commits now limit st.commits 0

/-- `InMemoryStore::mark_commit_synced` (`src/backend/src/repo.rs:1443-1446`):
`HashSet::insert`. -/
def markCommitSynced (st : InMemoryStore) (cid : Int) : InMemoryStore :=
  { st with synced_commits :=
      if st.synced_commits.contains cid then st.synced_commits
      else st.synced_commits ++ [cid] }

/-- `InMemoryStore::set_reveal_tx_hash` (`src/backend/src/repo.rs:1448-1455`):
stores the hash and ALSO sets `commit_sync_completed = true`. -/
def setRevealTxHash (st : InMemoryStore) (pid : Int) (tx : String) : InMemoryStore :=
  let upd := fun (p : PollRecord) =>
    { p with reveal_tx_hash := tx, commit_sync_completed := true }
  { st with polls := pollsModify st.polls pid upd }

/-- `InMemoryStore::mark_poll_sync_complete` (`src/backend/src/repo.rs:1466-1472`). -/
def markPollSyncComplete (st : InMemoryStore) (pid : Int) : InMemoryStore :=
  let upd := fun (p : PollRecord) => { p with commit_sync_completed := true }
  { st with polls := pollsModify st.polls pid upd }

/-- `InMemoryStore::poll_has_pending_commits` (`src/backend/src/repo.rs:1457-1464`). -/
def pollHasPendingCommits (st : InMemoryStore) (pid : Int) : Bool :=
  st.commits.any (fun c =>
    decide (c.poll_id = pid) && ! st.synced_commits.contains c.id)

/-- `InMemoryStore::mark_polls_without_pending_commits`
(`src/backend/src/repo.rs:1501-1516`). -/
def markPollsWithoutPendingCommits (st : InMemoryStore) (now : Int) : InMemoryStore :=
  { st with polls := st.polls.map (fun kp =>
      let p := kp.2
      if p.commit_phase_end ≤ now ∧ p.commit_sync_completed = false ∧
         ¬ (st.commits.any (fun c =>
              decide (c.poll_id = p.id) && ! st.synced_commits.contains c.id)) = true
      then (kp.1, { p with commit_sync_completed := true })
      else kp) }

/-- The distinct poll ids of the pending rows, in first-occurrence order
(stand-in for the arbitrary iteration order of the `HashMap` grouping in
`sync_reveals_once`, `src/backend/src/main.rs:289-293`). -/
def distinctPollIds (rows : List CommitSyncRow) : List Int :=
  rows.foldl (fun acc r => if r.poll_id ∈ acc then acc else acc ++ [r.poll_id]) []

/-- The `by_poll` grouping of `sync_reveals_once` (`src/backend/src/main.rs:289-293`):
each pending row goes to its poll's bucket, order inside a bucket preserved. -/
def groupByPoll (rows : List CommitSyncRow) : List (Int × List CommitSyncRow) :=
  (distinctPollIds rows).map (fun pid => (pid, rows.filter (fun r => decide (r.poll_id = pid))))

/-- Structural worker for `chunks20`; the fuel argument is always at least
the list length, so the `0, _ :: _` case is unreachable. -/
def chunksGo : Nat → List CommitSyncRow → List (List CommitSyncRow)
  | _, [] => []
  | 0, _ :: _ => []
  | fuel + 1, l => l.take REVEAL_BATCH_SIZE :: chunksGo fuel (l.drop REVEAL_BATCH_SIZE)

/-- Successive `drain(0..min(len, REVEAL_BATCH_SIZE))` chunks of the item list
(`src/backend/src/main.rs:297-299`). -/
def chunks20 (l : List CommitSyncRow) : List (List CommitSyncRow) :=
  chunksGo l.length l

/-- Outcome trace of the external `OnchainRevealer::submit_batch_reveal`
collaborator: the `k`-th submission call of a tick either succeeds with an
optional transaction hash or fails. -/
def Oracle : Type := Nat → Except Unit (Option String)

/-- Per-poll batch loop of `sync_reveals_once` (`src/backend/src/main.rs:297-316`):
for each chunk call the revealer (consuming one oracle entry); on success mark
every item of the chunk synced and persist a returned tx hash (which also
flips `commit_sync_completed`, see `setRevealTxHash`); on failure stop
processing this poll's remaining batches.  Returns the store, the next oracle
index, and the calls made as `(poll_id, batch size)` pairs. -/
def runChunks (oracle : Oracle) (pid : Int) :
    InMemoryStore → Nat → List (List CommitSyncRow) →
    InMemoryStore × Nat × List (Int × Nat)
  | st, k, [] => (st, k, [])
  | st, k, chunk :: rest =>
    match oracle k with
    | Except.ok txOpt =>
      let st1 := chunk.foldl (fun s it => markCommitSynced s it.id) st
      let st2 := match txOpt with
        | some tx => setRevealTxHash st1 pid tx
        | none => st1
      let r := runChunks oracle pid st2 (k + 1) rest
      (r.1, r.2.1, (pid, chunk.length) :: r.2.2)
    | Except.error _ => (st, k + 1, [(pid, chunk.length)])

/-- One poll's processing inside the tick (`src/backend/src/main.rs:295-320`):
run the batches, then mark the poll `commit_sync_completed` when it has no
pending commitments left. -/
def processPoll (oracle : Oracle) (st : InMemoryStore) (k : Nat) (pid : Int)
    (items : List CommitSyncRow) : InMemoryStore × Nat × List (Int × Nat) :=
  let r := runChunks oracle pid st k (chunks20 items)
  let st2 := if pollHasPendingCommits r.1 pid then r.1 else markPollSyncComplete r.1 pid
  (st2, r.2.1, r.2.2)

/-- One iteration of the per-poll loop of `sync_reveals_once`
(`src/backend/src/main.rs:295-320`), threading store, oracle index and
accumulated calls. -/
def tickStep (oracle : Oracle) (acc : InMemoryStore × Nat × List (Int × Nat))
    (g : Int × List CommitSyncRow) : InMemoryStore × Nat × List (Int × Nat) :=
  let r1 := processPoll oracle acc.1 acc.2.1 g.1 g.2
  (r1.1, r1.2.1, acc.2.2 ++ r1.2.2)

/-- `sync_reveals_once` (`src/backend/src/main.rs:278-323`) over the in-memory
store: fetch up to 200 pending commitments, group by poll, process each poll's
batches, then `mark_polls_without_pending_commits`.  Returns the final store
and the submission calls issued, as `(poll_id, batch size)` in call order. -/
def syncRevealsOnce (oracle : Oracle) (st : InMemoryStore) (now : Int) :
    InMemoryStore × List (Int × Nat) :=
  let pending := st.commits_to_sync now 200
  let groups := groupByPoll pending
  let r := groups.foldl (tickStep oracle) (st, 0, ([] : List (Int × Nat)))
  (markPollsWithoutPendingCommits r.1 now, r.2.2)

/-- A two-call outcome trace: result `r0` for the first submission call, `r1`
for the second, failure afterwards. -/
def oracleOf (r0 r1 : Except Unit (Option String)) : Oracle := fun k =>
  if k = 0 then r0 else if k = 1 then r1 else Except.error ()

/-- `Ok(_)` discriminator on results. -/
def isOkE {ε α : Type} : Except ε α → Bool
  | Except.ok _ => true
  | Except.error _ => false

/-- A result that is an `AppError::Validation` failure. -/
def isValidationErr {α : Type} : Except AppError α → Bool
  | Except.error e => e.isValidation
  | Except.ok _ => false

/-- No two stored commitments share the key `(poll_id, identity_secret)`. -/
def commitKeysUnique (l : List StoredCommitRecord) : Prop :=
  l.Pairwise (fun a b => ¬ (a.poll_id = b.poll_id ∧ a.identity_secret = b.identity_secret))

/-- No two in-memory votes share the key `(poll_id, nullifier)`. -/
def voteKeysUnique (l : List StoredVoteRecord) : Prop :=
  l.Pairwise (fun a b => ¬ (a.poll_id = b.poll_id ∧ a.nullifier = b.nullifier))

/-- No two Postgres `votes` rows share the key `(poll_id, nullifier)`. -/
def pgVoteKeysUnique (l : List PgVoteRow) : Prop :=
  l.Pairwise (fun a b => ¬ (a.poll_id = b.poll_id ∧ a.nullifier = b.nullifier))

/-- The in-memory double-vote invariant: vote keys are unique and every
stored vote's key is registered in the `vote_nullifiers` map. -/
def VoteInv (st : InMemoryStore) : Prop :=
  voteKeysUnique st.votes ∧
  ∀ v ∈ st.votes, st.vote_nullifiers.contains (v.poll_id, v.nullifier) = true

/-- A commitment still to be pushed on-chain: unsynced and inside its poll's
reveal window (the filter of `InMemoryStore::commits_to_sync`). -/
def pendingB (st : InMemoryStore) (now : Int) (cm : StoredCommitRecord) : Bool :=
  (! st.synced_commits.contains cm.id) && commitEligible st.polls now cm

/-- Total XP awarded for `k` commitments of which `kc` matched the correct
option: `XP_CORRECT` per match, `XP_PARTICIPATION` otherwise. -/
def awardTotal (k kc : Nat) : Int :=
  XP_CORRECT * (kc : Int) + XP_PARTICIPATION * ((k - kc : Nat) : Int)

/-- The cumulative effect of scoring `k` commitments (`kc` of them correct)
on one member's stats: XP and counters added, tier recomputed from the final
XP by the threshold ladder. -/
def applyScore (b : UserStatsRecord) (k kc : Nat) : UserStatsRecord :=
  { b with
    xp := b.xp + awardTotal k kc
    total_votes := b.total_votes + (k : Int)
    correct_votes := b.correct_votes + (kc : Int)
    tier := tier_for_xp (b.xp + awardTotal k kc) }

/-- Expected stats entry for member `i` after a scoring pass over the
commitment list `li` (already restricted to `i`): unchanged when `i` has no
commitment, otherwise `applyScore` over the previous entry (minted fresh if
absent). -/
def foldScore (m : List (String × UserStatsRecord)) (i : String)
    (li : List StoredCommitRecord) (c : Nat) : Option UserStatsRecord :=
  if li.length = 0 then statsLookup m i
  else some (applyScore ((statsLookup m i).getD (defaultStats i)) li.length
    ((li.filter (fun cm => choiceMatches cm.choice c)).length))

/-- A poll open for commits until `t = 100`, reveal until `t = 200`, already
resolved: its phase is `Resolved` at `now = 50` although the commit window is
still open. -/
def c4Poll : PollRecord :=
  { id := 0
    question := "q"
    options := ["A", "B"]
    commit_phase_end := 100
    reveal_phase_end := 200
    category := "General"
    membership_root := "r"
    owner := "alice"
    reveal_tx_hash := ""
    correct_option := some 1
    resolved := true
    commit_sync_completed := false
    vote_counts := [0, 0] }

/-- Store holding the resolved-but-in-commit-window poll, with member `id1`
and its server-issued per-poll secret. -/
def c4State : InMemoryStore :=
  { emptyStore with
    polls := [(0, c4Poll)]
    poll_members := [(0, ["id1"])]
    poll_secrets := [((0, "id1"), "s")] }

/-- A well-formed commit request matching `c4State`'s issued secret. -/
def c4Body : CommitRequest :=
  { choice := 0
    secret := "s"
    commitment := "cm"
    nullifier := "nf"
    proof := "pf"
    public_inputs := ["0"] }

/-- An unresolved two-option poll whose commit phase ended at `t = 0` and
whose reveal phase ends at `t = 100`. -/
def c5Poll : PollRecord :=
  { id := 0
    question := "q"
    options := ["A", "B"]
    commit_phase_end := 0
    reveal_phase_end := 100
    category := "General"
    membership_root := "r"
    owner := "o"
    reveal_tx_hash := ""
    correct_option := none
    resolved := false
    commit_sync_completed := false
    vote_counts := [0, 0] }

/-- The `i`-th pending commitment on poll `0`. -/
def mkSyncCommit (i : Nat) : StoredCommitRecord :=
  { id := (i : Int)
    poll_id := 0
    choice := 0
    commitment := "c"
    identity_secret := toString i
    secret := "s"
    recorded_at := 0
    nullifier := "n"
    proof := "p"
    public_inputs := [] }

/-- Reconciliation scenario: exactly 25 pending commitments for the single
poll `0`, which is inside its reveal window at `now = 50` and not yet
`commit_sync_completed`. -/
def c5State : InMemoryStore :=
  { emptyStore with polls := [(0, c5Poll)], commits := (List.range 25).map mkSyncCommit }

/-- A submission collaborator whose every call fails. -/
def failOracle : Oracle := fun _ => Except.error ()

/-- Reconciliation scenario with a single pending commitment on poll `0`. -/
def c6State : InMemoryStore :=
  { emptyStore with polls := [(0, c5Poll)], commits := [mkSyncCommit 0] }

/-- Poll-created payload used to replay an indexer event for poll `7`. -/
def c7Np : NewPoll :=
  { question := "q"
    options := ["A", "B"]
    commit_phase_end := 0
    reveal_phase_end := 100
    membership_root := "r"
    category := "General"
    owner := "o" }

/-- In-memory store after creating poll `7`. -/
def c7St1 : InMemoryStore := (emptyStore.create_poll_with_id 7 c7Np "r" ["m"]).1

/-- ... then resolving it with correct option `1`. -/
def c7St2 : InMemoryStore := (c7St1.resolve_poll 7 1).1

/-- ... then replaying the poll-created event through the indexer sink. -/
def c7St3 : InMemoryStore := c7St2.upsert_poll_from_chain 7 c7Np

/-- Postgres state holding poll `7`, resolved with correct option `1`. -/
def c7PgState : PgState :=
  { polls := [{ id := 7
                question := "q"
                options := ["A", "B"]
                commit_phase_end := 0
                reveal_phase_end := 100
                category := "General"
                membership_root := "r"
                owner := "o"
                reveal_tx_hash := ""
                correct_option := some 1
                resolved := true
                commit_sync_completed := true }]
    commitments := []
    votes := []
    commit_seq := 0 }

/-- A commitment by `alice` on poll `0`. -/
def c1Commit : StoredCommit :=
  { poll_id := 0
    choice := 1
    commitment := "cm"
    identity_secret := "alice"
    secret := "s"
    nullifier := "nf"
    proof := "pf"
    public_inputs := ["1"] }

/-- Postgres state after `alice`'s first commitment on poll `0` was inserted. -/
def c1PgState : PgState := (pgRecordCommit { polls := [], commitments := [], votes := [], commit_seq := 0 } c1Commit 1).1

/-- In-memory state after `alice`'s first commitment on poll `0` was recorded. -/
def c1MemState : InMemoryStore := (emptyStore.record_commit c1Commit 1).1

/-- In-memory state after one vote with nullifier `n` on poll `0` was
recorded through `record_vote`. -/
def c2St1 : InMemoryStore :=
  (InMemoryStore.record_vote emptyStore { poll_id := 0, nullifier := "n", choice := 0 } 0).1

/-- ... then the indexer replays a `VoteRevealed` event for the same
`(poll_id, nullifier)` through `upsert_vote_from_chain`. -/
def c2St2 : InMemoryStore := c2St1.upsert_vote_from_chain 0 "n" 1

/-- Resolution-scoring scenario: poll `0` past its reveal window with two
commitments, `m1` chose option `1` and `m0` chose option `0`. -/
def c8State : InMemoryStore :=
  { emptyStore with
    polls := [(0, { c5Poll with reveal_phase_end := 40 })]
    commits :=
      [{ id := 0
         poll_id := 0
         choice := 1
         commitment := "c1"
         identity_secret := "m1"
         secret := "s1"
         recorded_at := 0
         nullifier := "n1"
         proof := "p1"
         public_inputs := ["1"] },
       { id := 1
         poll_id := 0
         choice := 0
         commitment := "c0"
         identity_secret := "m0"
         secret := "s0"
         recorded_at := 0
         nullifier := "n0"
         proof := "p0"
         public_inputs := ["0"] }]
    user_stats := [("m1", defaultStats "m1"), ("m0", defaultStats "m0")] }

/-! ### Helper lemmas -/

theorem contains_iff_mem' {α : Type} [BEq α] [LawfulBEq α] (l : List α) (a : α) :
    l.contains a = true ↔ a ∈ l := by
  simp [List.contains, List.elem_iff]

theorem pollsLookup_modify_self (l : List (Int × PollRecord)) (pid : Int)
    (f : PollRecord → PollRecord) :
    pollsLookup (pollsModify l pid f) pid = (pollsLookup l pid).map f := by
  induction l with
  | nil => rfl
  | cons kp rest ih =>
    obtain ⟨k, p⟩ := kp
    simp only [pollsModify, List.map_cons] at ih ⊢
    by_cases h : k = pid
    · subst h
      rw [if_pos rfl]
      simp [pollsLookup]
    · rw [if_neg h]
      simp only [pollsLookup]
      rw [if_neg h, if_neg h]
      exact ih

theorem pollsLookup_modify_ne (l : List (Int × PollRecord)) (pid q : Int)
    (f : PollRecord → PollRecord) (hne : q ≠ pid) :
    pollsLookup (pollsModify l pid f) q = pollsLookup l q := by
  induction l with
  | nil => rfl
  | cons kp rest ih =>
    obtain ⟨k, p⟩ := kp
    simp only [pollsModify, List.map_cons] at ih ⊢
    by_cases h : k = pid
    · subst h
      rw [if_pos rfl]
      simp only [pollsLookup]
      rw [if_neg (Ne.symm hne), if_neg (Ne.symm hne)]
      exact ih
    · rw [if_neg h]
      simp only [pollsLookup]
      by_cases hq : k = q
      · rw [if_pos hq, if_pos hq]
      · rw [if_neg hq, if_neg hq]
        exact ih

theorem statsLookup_insert_self (m : List (String × UserStatsRecord)) (i : String)
    (v : UserStatsRecord) : statsLookup (statsInsert m i v) i = some v := by
  induction m with
  | nil => simp [statsInsert, statsLookup]
  | cons kv rest ih =>
    obtain ⟨k, w⟩ := kv
    simp only [statsInsert]
    by_cases hk : k = i
    · subst hk
      rw [if_pos rfl]
      simp [statsLookup]
    · rw [if_neg hk]
      simp only [statsLookup]
      rw [if_neg hk]
      exact ih

theorem statsLookup_insert_ne (m : List (String × UserStatsRecord)) (i j : String)
    (v : UserStatsRecord) (hne : j ≠ i) :
    statsLookup (statsInsert m i v) j = statsLookup m j := by
  induction m with
  | nil =>
    have hij : ¬ (i = j) := fun h => hne h.symm
    simp only [statsInsert, statsLookup]
    rw [if_neg hij]
  | cons kv rest ih =>
    obtain ⟨k, w⟩ := kv
    simp only [statsInsert]
    by_cases hk : k = i
    · subst hk
      have hkj : ¬ (k = j) := fun h => hne h.symm
      rw [if_pos rfl]
      simp only [statsLookup]
      rw [if_neg hkj, if_neg hkj]
    · rw [if_neg hk]
      simp only [statsLookup]
      by_cases hj : k = j
      · rw [if_pos hj, if_pos hj]
      · rw [if_neg hj, if_neg hj]
        exact ih

/-! ### C3 -/

/-- Claim C3: `phase(now, commit_end, reveal_end, resolved)` returns
`Resolved` when `resolved` is true or `now >= reveal_end`, otherwise `Reveal`
when `now >= commit_end`, otherwise `Commit` — exactly the spec's cascade. -/
theorem C3_phase_from_times (now ce re : Int) (r : Bool) :
    Phase.fromTimes now ce re r =
      if r = true ∨ re ≤ now then Phase.Resolved
      else if ce ≤ now then Phase.Reveal
      else Phase.Commit := by
  unfold Phase.fromTimes
  by_cases hr : r = true <;> by_cases h1 : re ≤ now <;> by_cases h2 : ce ≤ now <;>
    simp [hr, h1, h2]

/-! ### C1 -/

/-- Claim C1 (amended): a second `RecordCommitment` with an existing
`(poll_id, identity_secret)` never inserts a second row on either backend,
but the error kinds differ — the in-memory store answers
`Validation("already committed for this poll")`, while the Postgres store
surfaces the unique-index violation as a `Db` error, not `Validation`.
Successful inserts preserve key uniqueness on both backends. -/
theorem C1_commit_unique_per_backend :
    (∀ (st : InMemoryStore) (c : StoredCommit) (now : Int),
      (∃ r ∈ st.commits, r.poll_id = c.poll_id ∧ r.identity_secret = c.identity_secret) →
      st.record_commit c now =
        (st, Except.error (AppError.Validation ("already committed for this poll")))) ∧
    (∀ (st : PgState) (c : StoredCommit) (now : Int),
      (∃ r ∈ st.commitments, r.poll_id = c.poll_id ∧ r.identity_secret = c.identity_secret) →
      pgRecordCommit st c now = (st, Except.error (AppError.Db dbDupCommitMsg))) ∧
    (∀ (st : InMemoryStore) (c : StoredCommit) (now : Int),
      commitKeysUnique st.commits → commitKeysUnique (st.record_commit c now).1.commits) ∧
    (∀ (st : PgState) (c : StoredCommit) (now : Int),
      commitKeysUnique st.commitments → commitKeysUnique (pgRecordCommit st c now).1.commitments) := by
  refine ⟨?_, ?_, ?_, ?_⟩
  · intro st c now h
    obtain ⟨r, hr, h1, h2⟩ := h
    have hc : st.commits.any (fun r =>
        decide (r.poll_id = c.poll_id) && decide (r.identity_secret = c.identity_secret)) = true := by
      simp only [List.any_eq_true]
      exact ⟨r, hr, by simp [h1, h2]⟩
    simp [InMemoryStore.record_commit, hc]
  · intro st c now h
    obtain ⟨r, hr, h1, h2⟩ := h
    have hc : st.commitments.any (fun r =>
        decide (r.poll_id = c.poll_id) && decide (r.identity_secret = c.identity_secret)) = true := by
      simp only [List.any_eq_true]
      exact ⟨r, hr, by simp [h1, h2]⟩
    simp [pgRecordCommit, hc]
  · intro st c now h
    by_cases hc : st.commits.any (fun r =>
        decide (r.poll_id = c.poll_id) && decide (r.identity_secret = c.identity_secret)) = true
    · simpa [InMemoryStore.record_commit, hc] using h
    · have hall : ∀ r ∈ st.commits,
          ¬ (r.poll_id = c.poll_id ∧ r.identity_secret = c.identity_secret) := by
        intro r hr hk
        exact hc (by simp only [List.any_eq_true]; exact ⟨r, hr, by simp [hk.1, hk.2]⟩)
      simp only [InMemoryStore.record_commit, hc, Bool.false_eq_true, if_false, ite_false]
      unfold commitKeysUnique at h ⊢
      rw [List.pairwise_append]
      refine ⟨h, List.pairwise_singleton _ _, ?_⟩
      intro a ha b hb
      simp only [List.mem_singleton] at hb
      subst hb
      intro hk
      exact hall a ha ⟨hk.1, hk.2⟩
  · intro st c now h
    by_cases hc : st.commitments.any (fun r =>
        decide (r.poll_id = c.poll_id) && decide (r.identity_secret = c.identity_secret)) = true
    · simpa [pgRecordCommit, hc] using h
    · have hall : ∀ r ∈ st.commitments,
          ¬ (r.poll_id = c.poll_id ∧ r.identity_secret = c.identity_secret) := by
        intro r hr hk
        exact hc (by simp only [List.any_eq_true]; exact ⟨r, hr, by simp [hk.1, hk.2]⟩)
      simp only [pgRecordCommit, hc, Bool.false_eq_true, if_false, ite_false]
      unfold commitKeysUnique at h ⊢
      rw [List.pairwise_append]
      refine ⟨h, List.pairwise_singleton _ _, ?_⟩
      intro a ha b hb
      simp only [List.mem_singleton] at hb
      subst hb
      intro hk
      exact hall a ha ⟨hk.1, hk.2⟩

/-- Witness for C1: concrete duplicate inserts on both backends, each
rejected with the advertised error and leaving the stores unchanged. -/
theorem C1_witness :
    c1MemState.record_commit c1Commit 2 =
      (c1MemState, Except.error (AppError.Validation ("already committed for this poll"))) ∧
    pgRecordCommit c1PgState c1Commit 2 =
      (c1PgState, Except.error (AppError.Db dbDupCommitMsg)) := by
  constructor
  · exact C1_commit_unique_per_backend.1 c1MemState c1Commit 2
      ⟨{ id := 0, poll_id := 0, choice := 1, commitment := "cm", identity_secret := "alice",
         secret := "s", recorded_at := 1, nullifier := "nf", proof := "pf",
         public_inputs := ["1"] }, by decide, by decide, by decide⟩
  · exact C1_commit_unique_per_backend.2.1 c1PgState c1Commit 2
      ⟨{ id := 0, poll_id := 0, choice := 1, commitment := "cm", identity_secret := "alice",
         secret := "s", recorded_at := 1, nullifier := "nf", proof := "pf",
         public_inputs := ["1"] }, by decide, by decide, by decide⟩

/-- Counterexample for C1 as stated: on the Postgres backend the second
`RecordCommitment` with the same `(poll_id, identity_secret)` yields a `Db`
error — an error kind other than the claimed `Validation`. -/
theorem C1_counterexample :
    (pgRecordCommit c1PgState c1Commit 2).2 =
      Except.error (AppError.Db dbDupCommitMsg) ∧
    AppError.isValidation (AppError.Db dbDupCommitMsg) = false ∧
    (pgRecordCommit c1PgState c1Commit 2).1 = c1PgState :=
  ⟨rfl, rfl, rfl⟩

/-! ### C2 -/

/-- Claim C2 (amended): `RecordVote` enforces at-most-one vote per
`(poll_id, nullifier)` — a reused nullifier answers
`Validation("nullifier already used")` and leaves the store unchanged on the
in-memory backend, the invariant is preserved by `record_vote` on both
backends and by the Postgres `upsert_vote_from_chain` (conflict-ignoring);
the in-memory `upsert_vote_from_chain`, however, appends unconditionally
(see the counterexample). -/
theorem C2_vote_uniqueness :
    (∀ (st : InMemoryStore) (v : StoredVote) (now : Int),
      st.vote_nullifiers.contains (v.poll_id, v.nullifier) = true →
      st.record_vote v now =
        (st, Except.error (AppError.Validation ("nullifier already used")))) ∧
    (∀ (st : InMemoryStore) (v : StoredVote) (now : Int),
      VoteInv st → VoteInv (st.record_vote v now).1) ∧
    (∀ (st : PgState) (v : StoredVote) (now : Int),
      pgNullifierUsed st v.poll_id v.nullifier = true →
      pgRecordVote st v now =
        (st, Except.error (AppError.Validation ("nullifier already used")))) ∧
    (∀ (st : PgState) (v : StoredVote) (now : Int),
      pgVoteKeysUnique st.votes → pgVoteKeysUnique (pgRecordVote st v now).1.votes) ∧
    (∀ (st : PgState) (pid : Int) (n : String) (choice : Nat) (now : Int),
      pgVoteKeysUnique st.votes →
      pgVoteKeysUnique (pgUpsertVoteFromChain st pid n choice now).votes) := by
  refine ⟨?_, ?_, ?_, ?_, ?_⟩
  · intro st v now h
    simp only [InMemoryStore.record_vote]
    rw [if_pos h]
  · intro st v now h
    obtain ⟨huniq, hreg⟩ := h
    by_cases hc : st.vote_nullifiers.contains (v.poll_id, v.nullifier) = true
    · simp only [InMemoryStore.record_vote]
      rw [if_pos hc]
      exact ⟨huniq, hreg⟩
    · simp only [InMemoryStore.record_vote]
      rw [if_neg hc]
      unfold VoteInv
      dsimp only
      constructor
      · unfold voteKeysUnique at huniq ⊢
        rw [List.pairwise_append]
        refine ⟨huniq, List.pairwise_singleton _ _, ?_⟩
        intro a ha b hb
        simp only [List.mem_singleton] at hb
        subst hb
        intro hk
        have : st.vote_nullifiers.contains (v.poll_id, v.nullifier) = true := by
          have := hreg a ha
          rwa [hk.1, hk.2] at this
        exact hc this
      · intro w hw
        rcases List.mem_append.mp hw with hold | hnew
        · have := hreg w hold
          rw [contains_iff_mem'] at this ⊢
          exact List.mem_append.mpr (Or.inl this)
        · simp only [List.mem_singleton] at hnew
          subst hnew
          rw [contains_iff_mem']
          simp
  · intro st v now h
    simp [pgRecordVote, h]
  · intro st v now h
    by_cases hc : pgNullifierUsed st v.poll_id v.nullifier = true
    · simpa [pgRecordVote, hc] using h
    · have hall : ∀ w ∈ st.votes, ¬ (w.poll_id = v.poll_id ∧ w.nullifier = v.nullifier) := by
        intro w hw hk
        exact hc (by
          simp only [pgNullifierUsed, List.any_eq_true]
          exact ⟨w, hw, by simp [hk.1, hk.2]⟩)
      simp only [pgRecordVote, hc, Bool.false_eq_true, if_false, ite_false]
      unfold pgVoteKeysUnique at h ⊢
      rw [List.pairwise_append]
      refine ⟨h, List.pairwise_singleton _ _, ?_⟩
      intro a ha b hb
      simp only [List.mem_singleton] at hb
      subst hb
      intro hk
      exact hall a ha ⟨hk.1, hk.2⟩
  · intro st pid n choice now h
    by_cases hc : pgNullifierUsed st pid n = true
    · simpa [pgUpsertVoteFromChain, hc] using h
    · have hall : ∀ w ∈ st.votes, ¬ (w.poll_id = pid ∧ w.nullifier = n) := by
        intro w hw hk
        exact hc (by
          simp only [pgNullifierUsed, List.any_eq_true]
          exact ⟨w, hw, by simp [hk.1, hk.2]⟩)
      simp only [pgUpsertVoteFromChain, hc, Bool.false_eq_true, if_false, ite_false]
      unfold pgVoteKeysUnique at h ⊢
      rw [List.pairwise_append]
      refine ⟨h, List.pairwise_singleton _ _, ?_⟩
      intro a ha b hb
      simp only [List.mem_singleton] at hb
      subst hb
      intro hk
      exact hall a ha ⟨hk.1, hk.2⟩

/-- Witness for C2: a concrete duplicate `RecordVote` is rejected with
`Validation("nullifier already used")` and changes nothing. -/
theorem C2_witness :
    InMemoryStore.record_vote c2St1 { poll_id := 0, nullifier := "n", choice := 1 } 5 =
      (c2St1, Except.error (AppError.Validation ("nullifier already used"))) :=
  C2_vote_uniqueness.1 c2St1 { poll_id := 0, nullifier := "n", choice := 1 } 5 (by decide)

/-- Counterexample for C2 as stated: replaying a `VoteRevealed` event through
the in-memory `upsert_vote_from_chain` for a nullifier that `record_vote`
already stored yields a second Vote row with the same `(poll_id, nullifier)` —
the at-most-one-Vote invariant is not preserved by that operation. -/
theorem C2_counterexample :
    (InMemoryStore.record_vote emptyStore { poll_id := 0, nullifier := "n", choice := 0 } 0).2 =
      Except.ok { poll_id := 0, nullifier := "n", recorded_at := 0 } ∧
    (c2St2.votes.filter (fun v =>
      decide (v.poll_id = 0) && decide (v.nullifier = "n"))).length = 2 :=
  ⟨rfl, rfl⟩

/-! ### C7 -/

/-- Lookup after mapping an id-preserving update over `polls` rows. -/
theorem pgFind_map_update (l : List PgPollRow) (pid : Int) (upd : PgPollRow → PgPollRow)
    (hid : ∀ r, (upd r).id = r.id) (row : PgPollRow)
    (h : l.find? (fun r => decide (r.id = pid)) = some row) :
    (l.map (fun r => if r.id = pid then upd r else r)).find?
      (fun r => decide (r.id = pid)) = some (upd row) := by
  induction l with
  | nil => simp [List.find?] at h
  | cons r rest ih =>
    by_cases hr : r.id = pid
    · rw [List.find?_cons_of_pos _ (by simp [hr])] at h
      injection h with h
      subst h
      simp only [List.map_cons, if_pos hr]
      rw [List.find?_cons_of_pos _ (by simp [hid, hr])]
    · rw [List.find?_cons_of_neg _ (by simp [hr])] at h
      simp only [List.map_cons, if_neg hr]
      rw [List.find?_cons_of_neg _ (by simp [hr])]
      exact ih h

/-- Claim C7 (amended): on the Postgres backend a replayed poll-created event
(`upsert_poll_from_chain`) preserves `resolved` and `correct_option` of an
already-resolved poll — the conflict update never touches those columns; the
in-memory backend violates this (see the counterexample). -/
theorem C7_pg_resolution_monotonic (st : PgState) (pid : Int) (np : NewPoll)
    (row : PgPollRow) (hrow : pgLookupPoll st pid = some row)
    (hres : row.resolved = true) :
    (pgLookupPoll (pgUpsertPollFromChain st pid np) pid).map
      (fun r => (r.resolved, r.correct_option)) = some (true, row.correct_option) := by
  have hsome : (pgLookupPoll st pid).isSome := by rw [hrow]; rfl
  unfold pgUpsertPollFromChain
  rw [if_pos hsome]
  unfold pgLookupPoll at hrow ⊢
  simp only
  rw [pgFind_map_update st.polls pid
    (fun r =>
      { r with
        question := np.question
        options := np.options
        commit_phase_end := np.commit_phase_end
        reveal_phase_end := np.reveal_phase_end
        membership_root := np.membership_root
        category := np.category })
    (fun r => rfl) row hrow]
  simp [hres]

/-- Witness for C7: the concrete Postgres state keeps `resolved = true` and
`correct_option = 1` across a replayed poll-created event. -/
theorem C7_witness :
    (pgLookupPoll (pgUpsertPollFromChain c7PgState 7 c7Np) 7).map
      (fun r => (r.resolved, r.correct_option)) = some (true, some 1) :=
  C7_pg_resolution_monotonic c7PgState 7 c7Np
    { id := 7
      question := "q"
      options := ["A", "B"]
      commit_phase_end := 0
      reveal_phase_end := 100
      category := "General"
      membership_root := "r"
      owner := "o"
      reveal_tx_hash := ""
      correct_option := some 1
      resolved := true
      commit_sync_completed := true } (by decide) (by decide)

/-- Counterexample for C7 as stated: on the in-memory backend, resolving poll
`7` and then replaying its poll-created event through
`upsert_poll_from_chain` flips `resolved` back to `false` and clears
`correct_option`. -/
theorem C7_counterexample :
    (pollsLookup c7St2.polls 7).map (fun p => (p.resolved, p.correct_option)) =
      some (true, some 1) ∧
    (pollsLookup c7St3.polls 7).map (fun p => (p.resolved, p.correct_option)) =
      some (false, none) :=
  ⟨rfl, rfl⟩

/-! ### C4 -/

/-- Claim C4 (amended): the `record_commit` handler's phase gate is exactly
the time check — it fails with `Validation("commit phase over")` precisely
when `now >= commit_phase_end` and records nothing; the `resolved` flag is
never consulted, so a resolved poll still inside its commit window accepts
commitments (see the counterexample). -/
theorem C4_commit_phase_gate (deriveId : String → String) (freshSecret : String)
    (st : InMemoryStore) (pid now : Int) (username : Option String) (body : CommitRequest)
    (poll : PollRecord) (hpoll : pollsLookup st.polls pid = some poll)
    (hlate : poll.commit_phase_end ≤ now) :
    record_commit_handler deriveId freshSecret st pid now username body =
      (st, Except.error (AppError.Validation ("commit phase over"))) := by
  simp only [record_commit_handler, hpoll]
  rw [if_pos hlate]

/-- Witness for C4: a concrete late commit is rejected with
`Validation("commit phase over")` and nothing is recorded. -/
theorem C4_witness :
    record_commit_handler (fun _ => "id1") "fresh" c4State 0 150 (some "alice") c4Body =
      (c4State, Except.error (AppError.Validation ("commit phase over"))) :=
  C4_commit_phase_gate (fun _ => "id1") "fresh" c4State 0 150 (some "alice") c4Body
    c4Poll (by decide) (by decide)

/-- Counterexample for C4 as stated: poll `0` is already resolved while
`now = 50 < commit_phase_end = 100`, so its phase is `Resolved` (not
`Commit`), yet the `record_commit` handler accepts the request and stores a
commitment instead of failing with a `Validation` error. -/
theorem C4_counterexample :
    c4Poll.resolved = true ∧
    Phase.fromTimes 50 c4Poll.commit_phase_end c4Poll.reveal_phase_end c4Poll.resolved =
      Phase.Resolved ∧
    isOkE (record_commit_handler (fun _ => "id1") "fresh" c4State 0 50
      (some "alice") c4Body).2 = true ∧
    (record_commit_handler (fun _ => "id1") "fresh" c4State 0 50
      (some "alice") c4Body).1.commits.length = 1 :=
  ⟨rfl, rfl, rfl, rfl⟩

/-! ### C10 -/

/-- Claim C10: the no-op proof backend accepts exactly the choices `0` and
`1`: `prove` fails with `Validation("choice must be 0 or 1")` whenever
`choice > 1`, and hence the `generate_proof` handler can never produce a
proof for any `choice >= 2`, no matter how many options the poll has — the
options count is never consulted by the gate. -/
theorem C10_prove_choice_gate :
    (∀ (h : String → String) (req : ProofRequest), 1 < req.choice →
      noopProve h req = Except.error (AppError.Validation ("choice must be 0 or 1"))) ∧
    (∀ (h : String → String) (st : InMemoryStore) (pid now : Int) (body : ProveRequest)
      (poll : PollRecord), pollsLookup st.polls pid = some poll → 1 < body.choice →
      isValidationErr (generate_proof_handler h st pid now body) = true) := by
  constructor
  · intro h req hch
    simp only [noopProve]
    rw [if_pos hch]
  · intro h st pid now body poll hpoll hch
    simp only [generate_proof_handler, hpoll]
    by_cases hlate : poll.reveal_phase_end ≤ now
    · rw [if_pos hlate]
      rfl
    · rw [if_neg hlate]
      have : noopProve h
          { poll_id := pid
            choice := body.choice
            secret := body.secret
            identity_secret := body.identity_secret
            membership_root := poll.membership_root } =
          Except.error (AppError.Validation ("choice must be 0 or 1")) := by
        simp only [noopProve]
        rw [if_pos hch]
      rw [this]
      rfl

/-- Witness for C10: a three-option poll still rejects choice `2` — both
directly at the backend and through the handler. -/
theorem C10_witness :
    noopProve (fun s => s)
      { poll_id := 0, choice := 2, secret := "s", identity_secret := "i",
        membership_root := "r" } =
      Except.error (AppError.Validation ("choice must be 0 or 1")) ∧
    isValidationErr (generate_proof_handler (fun s => s)
      { emptyStore with polls := [(0, { c5Poll with options := ["A", "B", "C"] })] }
      0 50 { choice := 2, secret := "s", identity_secret := "i" }) = true :=
  ⟨C10_prove_choice_gate.1 (fun s => s)
      { poll_id := 0, choice := 2, secret := "s", identity_secret := "i",
        membership_root := "r" } (by decide),
   C10_prove_choice_gate.2 (fun s => s)
      { emptyStore with polls := [(0, { c5Poll with options := ["A", "B", "C"] })] }
      0 50 { choice := 2, secret := "s", identity_secret := "i" }
      { c5Poll with options := ["A", "B", "C"] } (by decide) (by decide)⟩

/-! ### C9 -/

/-- Claim C9: a resolve-poll request succeeds exactly when
`now >= reveal_phase_end`, the poll is not yet resolved, the caller is the
poll's owner and `correct_option < options.len()`; when any of the four
preconditions fails, the handler returns a `Validation` error and leaves the
store untouched. -/
theorem C9_resolve_preconditions (st : InMemoryStore) (pid now : Int) (u : String)
    (c : Nat) (poll : PollRecord) (hpoll : pollsLookup st.polls pid = some poll) :
    (isOkE (resolve_poll_handler st pid now (some u) c).2 = true ↔
      (poll.reveal_phase_end ≤ now ∧ poll.resolved = false ∧ poll.owner = u ∧
        c < poll.options.length)) ∧
    (¬ (poll.reveal_phase_end ≤ now ∧ poll.resolved = false ∧ poll.owner = u ∧
        c < poll.options.length) →
      (resolve_poll_handler st pid now (some u) c).1 = st ∧
      isValidationErr (resolve_poll_handler st pid now (some u) c).2 = true) := by
  simp only [resolve_poll_handler, hpoll]
  by_cases howner : poll.owner ≠ u
  · rw [if_pos howner]
    refine ⟨?_, fun _ => ⟨rfl, rfl⟩⟩
    simp only [isOkE]
    constructor
    · intro h
      exact absurd h (by simp)
    · intro h
      exact absurd h.2.2.1 howner
  · rw [if_neg howner]
    push_neg at howner
    by_cases hres : poll.resolved = true
    · rw [if_pos hres]
      refine ⟨?_, fun _ => ⟨rfl, rfl⟩⟩
      simp only [isOkE]
      constructor
      · intro h
        exact absurd h (by simp)
      · intro h
        rw [h.2.1] at hres
        exact absurd hres (by simp)
    · have hres' : poll.resolved = false := by
        cases hpr : poll.resolved
        · rfl
        · exact absurd hpr hres
      rw [if_neg hres]
      by_cases htime : now < poll.reveal_phase_end
      · rw [if_pos htime]
        refine ⟨?_, fun _ => ⟨rfl, rfl⟩⟩
        simp only [isOkE]
        constructor
        · intro h
          exact absurd h (by simp)
        · intro h
          exact absurd h.1 (by omega)
      · rw [if_neg htime]
        by_cases hopt : poll.options.length ≤ c
        · rw [if_pos hopt]
          refine ⟨?_, fun _ => ⟨rfl, rfl⟩⟩
          simp only [isOkE]
          constructor
          · intro h
            exact absurd h (by simp)
          · intro h
            exact absurd h.2.2.2 (by omega)
        · rw [if_neg hopt]
          have hok : isOkE (st.resolve_poll pid c).2 = true := by
            simp only [InMemoryStore.resolve_poll, hpoll]
            have h1 : pollsLookup (pollsModify st.polls pid (fun p => { p with resolved := true, correct_option := some (c : Int) })) pid = some { poll with resolved := true, correct_option := some (c : Int) } := by
              rw [pollsLookup_modify_self, hpoll]
              rfl
            simp only [finalizePollResults]
            rw [pollsLookup_modify_self]
            rw [h1]
            rfl
          refine ⟨?_, ?_⟩
          · rw [hok]
            simp only [true_iff]
            exact ⟨by omega, hres', howner, by omega⟩
          · intro hcon
            exact absurd ⟨by omega, hres', howner, by omega⟩ hcon

/-- Witness for C9: a concrete valid resolve request succeeds. -/
theorem C9_witness :
    isOkE (resolve_poll_handler c8State 0 50 (some "o") 1).2 = true :=
  (C9_resolve_preconditions c8State 0 50 "o" 1
    { c5Poll with reveal_phase_end := 40 } (by decide)).1.mpr
    ⟨by decide, by decide, by decide, by decide⟩

/-! ### C8 -/

theorem bump_lookup_self (m : List (String × UserStatsRecord)) (i : String) (corr : Bool) :
    statsLookup (bumpUserStatsLocal m i corr) i =
      some (applyScore ((statsLookup m i).getD (defaultStats i)) 1
        (if corr then 1 else 0)) := by
  unfold bumpUserStatsLocal
  rw [statsLookup_insert_self]
  cases corr <;>
    simp [applyScore, awardTotal, XP_CORRECT, XP_PARTICIPATION]

theorem bump_lookup_ne (m : List (String × UserStatsRecord)) (i j : String) (corr : Bool)
    (hne : j ≠ i) : statsLookup (bumpUserStatsLocal m i corr) j = statsLookup m j := by
  unfold bumpUserStatsLocal
  exact statsLookup_insert_ne _ _ _ _ hne

theorem applyScore_comp (b : UserStatsRecord) (c1 kc k : Nat) (hc1 : c1 ≤ 1)
    (hkc : kc ≤ k) :
    applyScore (applyScore b 1 c1) k kc = applyScore b (1 + k) (c1 + kc) := by
  have hxp : b.xp + awardTotal 1 c1 + awardTotal k kc =
      b.xp + awardTotal (1 + k) (c1 + kc) := by
    unfold awardTotal XP_CORRECT XP_PARTICIPATION
    omega
  unfold applyScore
  simp only [UserStatsRecord.mk.injEq]
  refine ⟨trivial, trivial, hxp, by push_cast; omega, by push_cast; omega, ?_⟩
  exact congrArg tier_for_xp hxp

/-- Scoring fold of `finalize_poll_results`, summarised per member: folding
`bump_user_stats_local` over a commitment list updates member `i`'s entry by
`applyScore` over the sublist of `i`'s commitments, and leaves members
without commitments untouched. -/
theorem statsLookup_fold_bump (c : Nat) (l : List StoredCommitRecord) :
    ∀ (m : List (String × UserStatsRecord)) (i : String),
      statsLookup (l.foldl (fun stats cm =>
        bumpUserStatsLocal stats cm.identity_secret (choiceMatches cm.choice c)) m) i =
      foldScore m i (l.filter (fun cm => decide (cm.identity_secret = i))) c := by
  induction l with
  | nil =>
    intro m i
    simp [foldScore]
  | cons cm rest ih =>
    intro m i
    simp only [List.foldl_cons, List.filter_cons]
    by_cases hid : cm.identity_secret = i
    · rw [if_pos (by simp [hid])]
      rw [ih]
      subst hid
      unfold foldScore
      by_cases h0 : (rest.filter
          (fun cm2 => decide (cm2.identity_secret = cm.identity_secret))).length = 0
      · rw [List.length_eq_zero] at h0
        rw [h0]
        rw [if_pos (by rfl)]
        rw [if_neg (by simp)]
        rw [bump_lookup_self]
        cases hcorr : choiceMatches cm.choice c <;>
          simp [List.filter_cons, hcorr]
      · rw [if_neg h0]
        rw [if_neg (by simp)]
        rw [bump_lookup_self]
        simp only [Option.getD_some]
        rw [applyScore_comp _ _ _ _ (by cases choiceMatches cm.choice c <;> simp)
          (List.length_filter_le _ _)]
        cases hcorr : choiceMatches cm.choice c <;>
          simp [List.filter_cons, hcorr, List.length_cons, Nat.add_comm]
    · rw [if_neg (by simp [hid])]
      rw [ih]
      unfold foldScore
      rw [bump_lookup_ne _ _ _ _ (fun h => hid h.symm)]

/-- Claim C8: `ResolvePoll` sets `resolved = true` and `correct_option`, and
scores every commitment of the poll: the committer gains `XP_CORRECT = 20`
when the commitment's choice equals the correct option and
`XP_PARTICIPATION = 5` otherwise, `total_votes` grows by one per commitment,
`correct_votes` by one per correct commitment, and the tier is recomputed
from the cumulative XP by the `tier_for_xp` threshold ladder
(50/150/350/600/900/1500) — all captured by `foldScore`/`applyScore`. -/
theorem C8_resolve_poll_scoring (st : InMemoryStore) (pid : Int) (c : Nat)
    (poll : PollRecord) (hpoll : pollsLookup st.polls pid = some poll) :
    ((pollsLookup (st.resolve_poll pid c).1.polls pid).map
      (fun q => (q.resolved, q.correct_option)) = some (true, some (c : Int))) ∧
    (∀ i, statsLookup (st.resolve_poll pid c).1.user_stats i =
      foldScore st.user_stats i
        ((st.commits.filter (fun cm => decide (cm.poll_id = pid))).filter
          (fun cm => decide (cm.identity_secret = i))) c) ∧
    isOkE (st.resolve_poll pid c).2 = true ∧
    XP_CORRECT = 20 ∧ XP_PARTICIPATION = 5 := by
  have hmain : st.resolve_poll pid c =
      ({ st with
          polls := pollsModify (pollsModify st.polls pid (fun p => { p with resolved := true, correct_option := some (c : Int) })) pid (fun q => recountVotes q (st.commits.filter (fun cm => decide (cm.poll_id = pid))))
          user_stats := (st.commits.filter (fun cm => decide (cm.poll_id = pid))).foldl
            (fun stats cm => bumpUserStatsLocal stats cm.identity_secret
              (choiceMatches cm.choice c)) st.user_stats },
        Except.ok (recountVotes { poll with resolved := true, correct_option := some (c : Int) } (st.commits.filter (fun cm => decide (cm.poll_id = pid))))) := by
    simp only [InMemoryStore.resolve_poll, hpoll, finalizePollResults]
    rw [pollsLookup_modify_self, pollsLookup_modify_self, hpoll]
    rfl
  rw [hmain]
  refine ⟨?_, ?_, rfl, rfl, rfl⟩
  · rw [pollsLookup_modify_self, pollsLookup_modify_self, hpoll]
    rfl
  · intro i
    exact statsLookup_fold_bump c _ st.user_stats i

/-- Witness for C8: in the two-member scenario resolved with correct option
`1`, member `m1` (choice 1) ends at the `applyScore`-predicted entry — and
that entry concretely carries `xp = 20`. -/
theorem C8_witness :
    statsLookup (InMemoryStore.resolve_poll c8State 0 1).1.user_stats "m1" =
      foldScore c8State.user_stats "m1"
        ((c8State.commits.filter (fun cm => decide (cm.poll_id = 0))).filter
          (fun cm => decide (cm.identity_secret = "m1"))) 1 ∧
    (statsLookup (InMemoryStore.resolve_poll c8State 0 1).1.user_stats "m1").map
      (fun e => (e.xp, e.total_votes, e.correct_votes, e.tier)) =
      some (20, 1, 1, "Seedling") ∧
    (statsLookup (InMemoryStore.resolve_poll c8State 0 1).1.user_stats "m0").map
      (fun e => (e.xp, e.total_votes, e.correct_votes, e.tier)) =
      some (5, 1, 0, "Seedling") :=
  ⟨(C8_resolve_poll_scoring c8State 0 1 { c5Poll with reveal_phase_end := 40 }
      (by decide)).2.1 "m1", rfl, rfl⟩

/-! ### C5 -/

set_option maxHeartbeats 3200000 in
/-- Claim C5 (amended): with 25 pending commitments for one poll in its
reveal window, a tick issues a first submission call of batch size 20 and —
only if that call succeeds — a second of size 5 (exactly one call when the
first fails); all 25 are marked synced exactly when both calls succeed; when
the second call fails, exactly the first 20 are marked synced, and the poll
ends the tick with `commit_sync_completed = false` only if the first call
returned no transaction hash — a returned hash flips the flag via
`set_reveal_tx_hash` despite the failed second batch. -/
theorem C5_batching :
    (∀ r1 : Except Unit (Option String),
      (syncRevealsOnce (oracleOf (Except.error ()) r1) c5State 50).2 = [(0, 20)] ∧
      (syncRevealsOnce (oracleOf (Except.error ()) r1) c5State 50).1.synced_commits = [] ∧
      (pollsLookup (syncRevealsOnce (oracleOf (Except.error ()) r1) c5State 50).1.polls 0).map
        (fun p => p.commit_sync_completed) = some false) ∧
    (∀ tx0 tx1 : Option String,
      (syncRevealsOnce (oracleOf (Except.ok tx0) (Except.ok tx1)) c5State 50).2 =
        [(0, 20), (0, 5)] ∧
      (syncRevealsOnce (oracleOf (Except.ok tx0) (Except.ok tx1)) c5State 50).1.synced_commits =
        (List.range 25).map (fun i => (i : Int))) ∧
    (∀ tx0 : Option String,
      (syncRevealsOnce (oracleOf (Except.ok tx0) (Except.error ())) c5State 50).2 =
        [(0, 20), (0, 5)] ∧
      (syncRevealsOnce (oracleOf (Except.ok tx0) (Except.error ())) c5State 50).1.synced_commits =
        (List.range 20).map (fun i => (i : Int)) ∧
      (pollsLookup (syncRevealsOnce
          (oracleOf (Except.ok tx0) (Except.error ())) c5State 50).1.polls 0).map
        (fun p => p.commit_sync_completed) = some tx0.isSome) := by
  refine ⟨?_, ?_, ?_⟩
  · intro r1
    exact ⟨rfl, rfl, rfl⟩
  · intro tx0 tx1
    cases tx0 <;> cases tx1 <;> exact ⟨rfl, rfl⟩
  · intro tx0
    cases tx0 <;> exact ⟨rfl, rfl, rfl⟩

/-- Witness for C5: the success/success and success/failure traces at
concrete transaction hashes. -/
theorem C5_witness :
    (syncRevealsOnce (oracleOf (Except.ok none) (Except.ok none)) c5State 50).2 =
      [(0, 20), (0, 5)] ∧
    (syncRevealsOnce (oracleOf (Except.ok none) (Except.error ())) c5State 50).1.synced_commits =
      (List.range 20).map (fun i => (i : Int)) :=
  ⟨(C5_batching.2.1 none none).1, ((C5_batching.2.2 none).2).1⟩

/-- Counterexample for C5 as stated: first call succeeds returning the
transaction hash `0xabc`, the second (size-5) call fails — only the first 20
commitments are synced, yet the poll IS marked `commit_sync_completed`
(through `set_reveal_tx_hash`), contradicting the claim. -/
theorem C5_counterexample :
    (syncRevealsOnce (oracleOf (Except.ok (some "0xabc")) (Except.error ())) c5State 50).2 =
      [(0, 20), (0, 5)] ∧
    (syncRevealsOnce (oracleOf (Except.ok (some "0xabc"))
        (Except.error ())) c5State 50).1.synced_commits =
      (List.range 20).map (fun i => (i : Int)) ∧
    (pollsLookup (syncRevealsOnce (oracleOf (Except.ok (some "0xabc"))
        (Except.error ())) c5State 50).1.polls 0).map
      (fun p => p.commit_sync_completed) = some true :=
  ⟨rfl, rfl, rfl⟩

/-! ### C6 -/

/-- Counterexample for C6 as stated: with a failing submission collaborator
and a single pending commitment, the first tick issues one (failing) call and
marks nothing; the second tick — with no new commitments recorded in
between — issues one further submission call, not zero. -/
theorem C6_counterexample :
    (syncRevealsOnce failOracle c6State 50).2 = [(0, 1)] ∧
    (syncRevealsOnce failOracle (syncRevealsOnce failOracle c6State 50).1 50).2 = [(0, 1)] :=
  ⟨rfl, rfl⟩

theorem markCommitSynced_commits (st : InMemoryStore) (cid : Int) :
    (markCommitSynced st cid).commits = st.commits := rfl

theorem markCommitSynced_polls (st : InMemoryStore) (cid : Int) :
    (markCommitSynced st cid).polls = st.polls := rfl

theorem setRevealTxHash_commits (st : InMemoryStore) (pid : Int) (tx : String) :
    (setRevealTxHash st pid tx).commits = st.commits := rfl

theorem setRevealTxHash_synced (st : InMemoryStore) (pid : Int) (tx : String) :
    (setRevealTxHash st pid tx).synced_commits = st.synced_commits := rfl

theorem markPollSyncComplete_commits (st : InMemoryStore) (pid : Int) :
    (markPollSyncComplete st pid).commits = st.commits := rfl

theorem markPollSyncComplete_synced (st : InMemoryStore) (pid : Int) :
    (markPollSyncComplete st pid).synced_commits = st.synced_commits := rfl

theorem markPollsWithoutPendingCommits_commits (st : InMemoryStore) (now : Int) :
    (markPollsWithoutPendingCommits st now).commits = st.commits := rfl

theorem markPollsWithoutPendingCommits_synced (st : InMemoryStore) (now : Int) :
    (markPollsWithoutPendingCommits st now).synced_commits = st.synced_commits := rfl

theorem contains_markCommitSynced (st : InMemoryStore) (cid i : Int)
    (h : st.synced_commits.contains i = true) :
    (markCommitSynced st cid).synced_commits.contains i = true := by
  have hs : (markCommitSynced st cid).synced_commits =
      (if st.synced_commits.contains cid = true then st.synced_commits
       else st.synced_commits ++ [cid]) := rfl
  rw [hs]
  split_ifs with hc
  · exact h
  · rw [contains_iff_mem'] at h ⊢
    exact List.mem_append.mpr (Or.inl h)

theorem contains_markCommitSynced_self (st : InMemoryStore) (cid : Int) :
    (markCommitSynced st cid).synced_commits.contains cid = true := by
  have hs : (markCommitSynced st cid).synced_commits =
      (if st.synced_commits.contains cid = true then st.synced_commits
       else st.synced_commits ++ [cid]) := rfl
  rw [hs]
  split_ifs with hc
  · exact hc
  · rw [contains_iff_mem']
    exact List.mem_append.mpr (Or.inr (List.mem_singleton.mpr rfl))

theorem foldMark_commits (chunk : List CommitSyncRow) :
    ∀ st : InMemoryStore,
      (chunk.foldl (fun s it => markCommitSynced s it.id) st).commits = st.commits := by
  induction chunk with
  | nil => intro st; rfl
  | cons it rest ih =>
    intro st
    rw [List.foldl_cons, ih, markCommitSynced_commits]

theorem foldMark_polls (chunk : List CommitSyncRow) :
    ∀ st : InMemoryStore,
      (chunk.foldl (fun s it => markCommitSynced s it.id) st).polls = st.polls := by
  induction chunk with
  | nil => intro st; rfl
  | cons it rest ih =>
    intro st
    rw [List.foldl_cons, ih, markCommitSynced_polls]

theorem foldMark_mono (chunk : List CommitSyncRow) :
    ∀ (st : InMemoryStore) (i : Int), st.synced_commits.contains i = true →
      (chunk.foldl (fun s it => markCommitSynced s it.id) st).synced_commits.contains i =
        true := by
  induction chunk with
  | nil => intro st i h; exact h
  | cons it rest ih =>
    intro st i h
    rw [List.foldl_cons]
    exact ih _ i (contains_markCommitSynced st it.id i h)

theorem foldMark_marks (chunk : List CommitSyncRow) :
    ∀ (st : InMemoryStore), ∀ it ∈ chunk,
      (chunk.foldl (fun s it => markCommitSynced s it.id) st).synced_commits.contains it.id =
        true := by
  induction chunk with
  | nil => intro st it h; cases h
  | cons it0 rest ih =>
    intro st it h
    rw [List.foldl_cons]
    rcases List.mem_cons.mp h with h0 | hrest
    · subst h0
      exact foldMark_mono rest _ it.id (contains_markCommitSynced_self st it.id)
    · exact ih _ it hrest

theorem runChunks_commits (oracle : Oracle) (pid : Int) :
    ∀ (cl : List (List CommitSyncRow)) (st : InMemoryStore) (k : Nat),
      (runChunks oracle pid st k cl).1.commits = st.commits := by
  intro cl
  induction cl with
  | nil => intro st k; rfl
  | cons chunk rest ih =>
    intro st k
    simp only [runChunks]
    cases oracle k with
    | ok txOpt =>
      cases txOpt <;>
        simp only [ih, setRevealTxHash_commits, foldMark_commits]
    | error e => rfl

theorem runChunks_mono (oracle : Oracle) (pid : Int) :
    ∀ (cl : List (List CommitSyncRow)) (st : InMemoryStore) (k : Nat) (i : Int),
      st.synced_commits.contains i = true →
      (runChunks oracle pid st k cl).1.synced_commits.contains i = true := by
  intro cl
  induction cl with
  | nil => intro st k i h; exact h
  | cons chunk rest ih =>
    intro st k i h
    simp only [runChunks]
    cases oracle k with
    | ok txOpt =>
      cases txOpt with
      | some tx =>
        apply ih
        rw [setRevealTxHash_synced]
        exact foldMark_mono chunk st i h
      | none =>
        apply ih
        exact foldMark_mono chunk st i h
    | error e => exact h

theorem runChunks_marks (oracle : Oracle) (pid : Int)
    (hok : ∀ k, isOkE (oracle k) = true) :
    ∀ (cl : List (List CommitSyncRow)) (st : InMemoryStore) (k : Nat),
      ∀ chunk ∈ cl, ∀ it ∈ chunk,
      (runChunks oracle pid st k cl).1.synced_commits.contains it.id = true := by
  intro cl
  induction cl with
  | nil => intro st k chunk h; cases h
  | cons chunk0 rest ih =>
    intro st k chunk hchunk it hit
    simp only [runChunks]
    cases hk : oracle k with
    | ok txOpt =>
      rcases List.mem_cons.mp hchunk with h0 | hrest
      · subst h0
        have hmarked : (chunk.foldl (fun s it => markCommitSynced s it.id)
            st).synced_commits.contains it.id = true :=
          foldMark_marks chunk st it hit
        cases txOpt with
        | some tx =>
          apply runChunks_mono
          rw [setRevealTxHash_synced]
          exact hmarked
        | none => exact runChunks_mono oracle pid rest _ _ it.id hmarked
      · cases txOpt <;> exact ih _ _ chunk hrest it hit
    | error e =>
      have := hok k
      rw [hk] at this
      cases this

theorem chunksGo_flatten :
    ∀ (fuel : Nat) (l : List CommitSyncRow), l.length ≤ fuel →
      (chunksGo fuel l).flatten = l := by
  intro fuel
  induction fuel with
  | zero =>
    intro l h
    cases l with
    | nil => rfl
    | cons a as => simp at h
  | succ n ih =>
    intro l h
    cases l with
    | nil => rfl
    | cons a as =>
      simp only [chunksGo, List.flatten_cons]
      rw [ih ((a :: as).drop REVEAL_BATCH_SIZE) (by
        simp only [List.length_drop, List.length_cons, REVEAL_BATCH_SIZE]
        simp only [List.length_cons] at h
        omega)]
      exact List.take_append_drop _ _

theorem mem_chunks20 (l : List CommitSyncRow) (it : CommitSyncRow) (h : it ∈ l) :
    ∃ c ∈ chunks20 l, it ∈ c := by
  have hj : (chunks20 l).flatten = l := chunksGo_flatten l.length l (Nat.le_refl _)
  rw [← hj] at h
  exact List.mem_flatten.mp h

theorem mem_distinct_mono (rows : List CommitSyncRow) :
    ∀ (acc : List Int) (x : Int), x ∈ acc →
      x ∈ rows.foldl (fun acc r => if r.poll_id ∈ acc then acc else acc ++ [r.poll_id]) acc := by
  induction rows with
  | nil => intro acc x h; exact h
  | cons r rest ih =>
    intro acc x h
    rw [List.foldl_cons]
    apply ih
    split_ifs with hc
    · exact h
    · exact List.mem_append.mpr (Or.inl h)

theorem mem_distinctPollIds (rows : List CommitSyncRow) (r : CommitSyncRow) (h : r ∈ rows) :
    r.poll_id ∈ distinctPollIds rows := by
  unfold distinctPollIds
  have hgen : ∀ (acc : List Int), r ∈ rows →
      r.poll_id ∈ rows.foldl
        (fun acc r => if r.poll_id ∈ acc then acc else acc ++ [r.poll_id]) acc := by
    clear h
    induction rows with
    | nil => intro acc h; cases h
    | cons r0 rest ih =>
      intro acc h
      rw [List.foldl_cons]
      rcases List.mem_cons.mp h with h0 | hrest
      · subst h0
        apply mem_distinct_mono
        split_ifs with hc
        · exact hc
        · exact List.mem_append.mpr (Or.inr (List.mem_singleton.mpr rfl))
      · exact ih _ hrest
  exact hgen [] h

theorem mem_groupByPoll (rows : List CommitSyncRow) (r : CommitSyncRow) (h : r ∈ rows) :
    ∃ g ∈ groupByPoll rows, r ∈ g.2 := by
  refine ⟨(r.poll_id, rows.filter (fun x => decide (x.poll_id = r.poll_id))), ?_, ?_⟩
  · unfold groupByPoll
    exact List.mem_map.mpr ⟨r.poll_id, mem_distinctPollIds rows r h, rfl⟩
  · simp only [List.mem_filter]
    exact ⟨h, by simp⟩

theorem pollEnds_modify (l : List (Int × PollRecord)) (pid : Int)
    (f : PollRecord → PollRecord)
    (hf : ∀ p, (f p).commit_phase_end = p.commit_phase_end ∧
      (f p).reveal_phase_end = p.reveal_phase_end) (q : Int) :
    (pollsLookup (pollsModify l pid f) q).map
      (fun p => (p.commit_phase_end, p.reveal_phase_end)) =
    (pollsLookup l q).map (fun p => (p.commit_phase_end, p.reveal_phase_end)) := by
  by_cases hq : q = pid
  · subst hq
    rw [pollsLookup_modify_self]
    cases pollsLookup l q with
    | none => rfl
    | some p => simp [hf p]
  · rw [pollsLookup_modify_ne _ _ _ _ hq]

theorem pollEnds_map_preserving (l : List (Int × PollRecord))
    (g : Int × PollRecord → Int × PollRecord)
    (hg : ∀ kp, (g kp).1 = kp.1 ∧ (g kp).2.commit_phase_end = kp.2.commit_phase_end ∧
      (g kp).2.reveal_phase_end = kp.2.reveal_phase_end) (q : Int) :
    (pollsLookup (l.map g) q).map (fun p => (p.commit_phase_end, p.reveal_phase_end)) =
    (pollsLookup l q).map (fun p => (p.commit_phase_end, p.reveal_phase_end)) := by
  induction l with
  | nil => rfl
  | cons kp rest ih =>
    obtain ⟨k, p⟩ := kp
    simp only [List.map_cons]
    cases hgp : g (k, p) with
    | mk k1 p1 =>
      have hk1 : k1 = k := by
        have h0 := (hg (k, p)).1
        rw [hgp] at h0
        exact h0
      have hce : p1.commit_phase_end = p.commit_phase_end := by
        have h0 := (hg (k, p)).2.1
        rw [hgp] at h0
        exact h0
      have hre : p1.reveal_phase_end = p.reveal_phase_end := by
        have h0 := (hg (k, p)).2.2
        rw [hgp] at h0
        exact h0
      simp only [pollsLookup]
      rw [hk1]
      by_cases hq : k = q
      · rw [if_pos hq, if_pos hq]
        simp [hce, hre]
      · rw [if_neg hq, if_neg hq]
        exact ih

theorem commitEligible_congr (polls polls' : List (Int × PollRecord)) (now : Int)
    (cm : StoredCommitRecord)
    (h : (pollsLookup polls' cm.poll_id).map
        (fun p => (p.commit_phase_end, p.reveal_phase_end)) =
      (pollsLookup polls cm.poll_id).map
        (fun p => (p.commit_phase_end, p.reveal_phase_end))) :
    commitEligible polls' now cm = commitEligible polls now cm := by
  unfold commitEligible
  cases h1 : pollsLookup polls cm.poll_id with
  | none =>
    rw [h1] at h
    cases h2 : pollsLookup polls' cm.poll_id with
    | none => rfl
    | some p => rw [h2] at h; cases h
  | some p =>
    rw [h1] at h
    cases h2 : pollsLookup polls' cm.poll_id with
    | none => rw [h2] at h; cases h
    | some p' =>
      rw [h2] at h
      simp only [Option.map_some', Option.some.injEq, Prod.mk.injEq] at h
      simp [h.1, h.2]

theorem runChunks_pollEnds (oracle : Oracle) (pid : Int) :
    ∀ (cl : List (List CommitSyncRow)) (st : InMemoryStore) (k : Nat) (q : Int),
      (pollsLookup (runChunks oracle pid st k cl).1.polls q).map
        (fun p => (p.commit_phase_end, p.reveal_phase_end)) =
      (pollsLookup st.polls q).map
        (fun p => (p.commit_phase_end, p.reveal_phase_end)) := by
  intro cl
  induction cl with
  | nil => intro st k q; rfl
  | cons chunk rest ih =>
    intro st k q
    simp only [runChunks]
    cases oracle k with
    | ok txOpt =>
      cases txOpt with
      | some tx =>
        rw [ih]
        have hpolls : (setRevealTxHash
            (chunk.foldl (fun s it => markCommitSynced s it.id) st) pid tx).polls =
            pollsModify (chunk.foldl (fun s it => markCommitSynced s it.id) st).polls pid
              (fun p => { p with reveal_tx_hash := tx, commit_sync_completed := true }) := rfl
        rw [hpolls]
        rw [pollEnds_modify _ pid
          (fun p => { p with reveal_tx_hash := tx, commit_sync_completed := true })
          (fun p => ⟨rfl, rfl⟩) q]
        rw [foldMark_polls]
      | none =>
        rw [ih, foldMark_polls]
    | error e => rfl

theorem markPollSyncComplete_pollEnds (st : InMemoryStore) (pid q : Int) :
    (pollsLookup (markPollSyncComplete st pid).polls q).map
      (fun p => (p.commit_phase_end, p.reveal_phase_end)) =
    (pollsLookup st.polls q).map (fun p => (p.commit_phase_end, p.reveal_phase_end)) := by
  have hpolls : (markPollSyncComplete st pid).polls =
      pollsModify st.polls pid (fun p => { p with commit_sync_completed := true }) := rfl
  rw [hpolls]
  rw [pollEnds_modify _ pid (fun p => { p with commit_sync_completed := true })
    (fun p => ⟨rfl, rfl⟩) q]

theorem markPollsWithoutPendingCommits_pollEnds (st : InMemoryStore) (now q : Int) :
    (pollsLookup (markPollsWithoutPendingCommits st now).polls q).map
      (fun p => (p.commit_phase_end, p.reveal_phase_end)) =
    (pollsLookup st.polls q).map (fun p => (p.commit_phase_end, p.reveal_phase_end)) := by
  apply pollEnds_map_preserving
  intro kp
  refine ⟨?_, ?_, ?_⟩ <;> (dsimp only; split_ifs <;> rfl)

theorem commitsToSyncAux_eq (polls : List (Int × PollRecord)) (synced : List Int)
    (now limit : Int) :
    ∀ (l : List StoredCommitRecord) (cnt : Int),
      cnt + ((l.filter (fun cm =>
        (! synced.contains cm.id) && commitEligible polls now cm)).length : Int) ≤ limit →
      commitsToSyncAux polls synced now limit l cnt =
        (l.filter (fun cm =>
          (! synced.contains cm.id) && commitEligible polls now cm)).map toSyncRow := by
  intro l
  induction l with
  | nil => intro cnt h; rfl
  | cons cm rest ih =>
    intro cnt h
    cases hp : ((! synced.contains cm.id) && commitEligible polls now cm) with
    | false =>
      have hfil : (cm :: rest).filter (fun cm =>
          (! synced.contains cm.id) && commitEligible polls now cm) =
          rest.filter (fun cm =>
            (! synced.contains cm.id) && commitEligible polls now cm) := by
        rw [List.filter_cons, hp]
        rw [if_neg Bool.false_ne_true]
      rw [hfil] at h ⊢
      simp only [commitsToSyncAux]
      by_cases hcnt : limit ≤ cnt
      · rw [if_pos hcnt]
        have hlen : ((rest.filter (fun cm =>
            (! synced.contains cm.id) && commitEligible polls now cm)).length : Int) = 0 := by
          omega
        have h0 : rest.filter (fun cm =>
            (! synced.contains cm.id) && commitEligible polls now cm) = [] :=
          List.length_eq_zero.mp (by exact_mod_cast hlen)
        rw [h0]
        rfl
      · rw [if_neg hcnt]
        by_cases hs : synced.contains cm.id = true
        · rw [hs, if_pos rfl]
          exact ih cnt h
        · have hs' : synced.contains cm.id = false := by
            cases hv : synced.contains cm.id
            · rfl
            · exact absurd hv hs
          have he' : commitEligible polls now cm = false := by
            rw [hs'] at hp
            simpa using hp
          rw [hs', if_neg Bool.false_ne_true, he', if_neg Bool.false_ne_true]
          exact ih cnt h
    | true =>
      have hs' : synced.contains cm.id = false := by
        cases hv : synced.contains cm.id
        · rfl
        · rw [hv] at hp
          simp at hp
      have he : commitEligible polls now cm = true := by
        rw [hs'] at hp
        simpa using hp
      have hfil : (cm :: rest).filter (fun cm =>
          (! synced.contains cm.id) && commitEligible polls now cm) =
          cm :: rest.filter (fun cm =>
            (! synced.contains cm.id) && commitEligible polls now cm) := by
        rw [List.filter_cons, hp]
        rw [if_pos rfl]
      rw [hfil] at h ⊢
      simp only [List.length_cons] at h
      push_cast at h
      simp only [commitsToSyncAux]
      rw [if_neg (by omega)]
      rw [hs', if_neg Bool.false_ne_true, he, if_pos rfl]
      simp only [List.map_cons]
      rw [ih (cnt + 1) (by omega)]

theorem commitsToSyncAux_nil (polls : List (Int × PollRecord)) (synced : List Int)
    (now limit : Int) :
    ∀ (l : List StoredCommitRecord) (cnt : Int),
      (∀ cm ∈ l, ((! synced.contains cm.id) && commitEligible polls now cm) = false) →
      commitsToSyncAux polls synced now limit l cnt = [] := by
  intro l
  induction l with
  | nil => intro cnt h; rfl
  | cons cm rest ih =>
    intro cnt h
    have hcm := h cm (List.mem_cons_self _ _)
    simp only [commitsToSyncAux]
    by_cases hcnt : limit ≤ cnt
    · rw [if_pos hcnt]
    · rw [if_neg hcnt]
      by_cases hs : synced.contains cm.id = true
      · rw [hs]
        simp only [if_pos rfl]
        exact ih cnt (fun x hx => h x (List.mem_cons_of_mem _ hx))
      · have hs' : synced.contains cm.id = false := by
          cases hv : synced.contains cm.id
          · rfl
          · exact absurd hv hs
        have he' : commitEligible polls now cm = false := by
          rw [hs'] at hcm
          simpa using hcm
        rw [hs']
        simp only [Bool.false_eq_true, if_neg, ite_false]
        rw [he']
        simp only [Bool.false_eq_true, if_neg, ite_false]
        exact ih cnt (fun x hx => h x (List.mem_cons_of_mem _ hx))

theorem processPoll_commits (oracle : Oracle) (st : InMemoryStore) (k : Nat) (pid : Int)
    (items : List CommitSyncRow) :
    (processPoll oracle st k pid items).1.commits = st.commits := by
  unfold processPoll
  dsimp only
  split_ifs
  · exact runChunks_commits oracle pid _ st k
  · rw [markPollSyncComplete_commits]
    exact runChunks_commits oracle pid _ st k

theorem processPoll_mono (oracle : Oracle) (st : InMemoryStore) (k : Nat) (pid : Int)
    (items : List CommitSyncRow) (i : Int) (h : st.synced_commits.contains i = true) :
    (processPoll oracle st k pid items).1.synced_commits.contains i = true := by
  unfold processPoll
  dsimp only
  split_ifs
  · exact runChunks_mono oracle pid _ st k i h
  · rw [markPollSyncComplete_synced]
    exact runChunks_mono oracle pid _ st k i h

theorem processPoll_pollEnds (oracle : Oracle) (st : InMemoryStore) (k : Nat) (pid : Int)
    (items : List CommitSyncRow) (q : Int) :
    (pollsLookup (processPoll oracle st k pid items).1.polls q).map
      (fun p => (p.commit_phase_end, p.reveal_phase_end)) =
    (pollsLookup st.polls q).map (fun p => (p.commit_phase_end, p.reveal_phase_end)) := by
  unfold processPoll
  dsimp only
  split_ifs
  · exact runChunks_pollEnds oracle pid _ st k q
  · rw [markPollSyncComplete_pollEnds]
    exact runChunks_pollEnds oracle pid _ st k q

theorem processPoll_marks (oracle : Oracle) (st : InMemoryStore) (k : Nat) (pid : Int)
    (items : List CommitSyncRow) (hok : ∀ j, isOkE (oracle j) = true)
    (it : CommitSyncRow) (hit : it ∈ items) :
    (processPoll oracle st k pid items).1.synced_commits.contains it.id = true := by
  obtain ⟨c, hc, hitc⟩ := mem_chunks20 items it hit
  unfold processPoll
  dsimp only
  split_ifs
  · exact runChunks_marks oracle pid hok _ st k c hc it hitc
  · rw [markPollSyncComplete_synced]
    exact runChunks_marks oracle pid hok _ st k c hc it hitc

theorem groupsFold_commits (oracle : Oracle) :
    ∀ (groups : List (Int × List CommitSyncRow)) (acc : InMemoryStore × Nat × List (Int × Nat)),
      (groups.foldl (tickStep oracle) acc).1.commits = acc.1.commits := by
  intro groups
  induction groups with
  | nil => intro acc; rfl
  | cons g rest ih =>
    intro acc
    rw [List.foldl_cons, ih]
    exact processPoll_commits oracle acc.1 acc.2.1 g.1 g.2

theorem groupsFold_mono (oracle : Oracle) :
    ∀ (groups : List (Int × List CommitSyncRow)) (acc : InMemoryStore × Nat × List (Int × Nat))
      (i : Int), acc.1.synced_commits.contains i = true →
      (groups.foldl (tickStep oracle) acc).1.synced_commits.contains i = true := by
  intro groups
  induction groups with
  | nil => intro acc i h; exact h
  | cons g rest ih =>
    intro acc i h
    rw [List.foldl_cons]
    exact ih _ i (processPoll_mono oracle acc.1 acc.2.1 g.1 g.2 i h)

theorem groupsFold_pollEnds (oracle : Oracle) :
    ∀ (groups : List (Int × List CommitSyncRow)) (acc : InMemoryStore × Nat × List (Int × Nat))
      (q : Int),
      (pollsLookup (groups.foldl (tickStep oracle) acc).1.polls q).map
        (fun p => (p.commit_phase_end, p.reveal_phase_end)) =
      (pollsLookup acc.1.polls q).map
        (fun p => (p.commit_phase_end, p.reveal_phase_end)) := by
  intro groups
  induction groups with
  | nil => intro acc q; rfl
  | cons g rest ih =>
    intro acc q
    rw [List.foldl_cons, ih]
    exact processPoll_pollEnds oracle acc.1 acc.2.1 g.1 g.2 q

theorem groupsFold_marks (oracle : Oracle) (hok : ∀ j, isOkE (oracle j) = true) :
    ∀ (groups : List (Int × List CommitSyncRow)) (acc : InMemoryStore × Nat × List (Int × Nat)),
      ∀ g ∈ groups, ∀ it ∈ g.2,
      (groups.foldl (tickStep oracle) acc).1.synced_commits.contains it.id = true := by
  intro groups
  induction groups with
  | nil => intro acc g hg; cases hg
  | cons g0 rest ih =>
    intro acc g hg it hit
    rw [List.foldl_cons]
    rcases List.mem_cons.mp hg with h0 | hrest
    · subst h0
      exact groupsFold_mono oracle rest _ it.id
        (processPoll_marks oracle acc.1 acc.2.1 g.1 g.2 hok it hit)
    · exact ih _ g hrest it hit

/-- Claim C6 (amended): provided every submission call of the first tick
succeeds and the pending backlog fits in the tick's 200-row fetch limit, a
second tick at the same instant with no new commitments recorded in between
issues zero submission calls: the first tick marks every pending commitment
synced, so the second finds nothing to submit.  (Without those provisos the
claim fails — a failed call leaves its items pending and the next tick
retries them, see the counterexample.) -/
theorem C6_second_tick_no_calls (o1 o2 : Oracle) (st : InMemoryStore) (now : Int)
    (hok : ∀ k, isOkE (o1 k) = true)
    (hlim : ((st.commits.filter (fun cm =>
      (! st.synced_commits.contains cm.id) && commitEligible st.polls now cm)).length : Int)
      ≤ 200) :
    (syncRevealsOnce o2 (syncRevealsOnce o1 st now).1 now).2 = [] := by
  set st1 := (syncRevealsOnce o1 st now).1 with hst1
  have hcommits : st1.commits = st.commits := by
    rw [hst1]
    show (markPollsWithoutPendingCommits
      ((groupByPoll (st.commits_to_sync now 200)).foldl (tickStep o1)
        (st, 0, ([] : List (Int × Nat)))).1 now).commits = st.commits
    rw [markPollsWithoutPendingCommits_commits]
    exact groupsFold_commits o1 _ _
  have hEnds : ∀ q, (pollsLookup st1.polls q).map
      (fun p => (p.commit_phase_end, p.reveal_phase_end)) =
      (pollsLookup st.polls q).map (fun p => (p.commit_phase_end, p.reveal_phase_end)) := by
    intro q
    rw [hst1]
    show (pollsLookup (markPollsWithoutPendingCommits
      ((groupByPoll (st.commits_to_sync now 200)).foldl (tickStep o1)
        (st, 0, ([] : List (Int × Nat)))).1 now).polls q).map
        (fun p => (p.commit_phase_end, p.reveal_phase_end)) =
      (pollsLookup st.polls q).map (fun p => (p.commit_phase_end, p.reveal_phase_end))
    rw [markPollsWithoutPendingCommits_pollEnds]
    exact groupsFold_pollEnds o1 _ _ q
  have hmono : ∀ i, st.synced_commits.contains i = true →
      st1.synced_commits.contains i = true := by
    intro i h
    rw [hst1]
    show (markPollsWithoutPendingCommits
      ((groupByPoll (st.commits_to_sync now 200)).foldl (tickStep o1)
        (st, 0, ([] : List (Int × Nat)))).1 now).synced_commits.contains i = true
    rw [markPollsWithoutPendingCommits_synced]
    exact groupsFold_mono o1 _ _ i h
  have hpend1 : st.commits_to_sync now 200 =
      (st.commits.filter (fun cm =>
        (! st.synced_commits.contains cm.id) && commitEligible st.polls now cm)).map
        toSyncRow :=
    commitsToSyncAux_eq st.polls st.synced_commits now 200 st.commits 0
      (by simpa using hlim)
  have hmarked : ∀ cm ∈ st.commits,
      ((! st.synced_commits.contains cm.id) && commitEligible st.polls now cm) = true →
      st1.synced_commits.contains cm.id = true := by
    intro cm hcm hP
    have hrow : toSyncRow cm ∈ st.commits_to_sync now 200 := by
      rw [hpend1]
      exact List.mem_map.mpr ⟨cm, List.mem_filter.mpr ⟨hcm, hP⟩, rfl⟩
    obtain ⟨g, hg, hrowg⟩ := mem_groupByPoll _ _ hrow
    rw [hst1]
    show (markPollsWithoutPendingCommits
      ((groupByPoll (st.commits_to_sync now 200)).foldl (tickStep o1)
        (st, 0, ([] : List (Int × Nat)))).1 now).synced_commits.contains cm.id = true
    rw [markPollsWithoutPendingCommits_synced]
    exact groupsFold_marks o1 hok _ _ g hg (toSyncRow cm) hrowg
  have hall : ∀ cm ∈ st1.commits,
      ((! st1.synced_commits.contains cm.id) && commitEligible st1.polls now cm) = false := by
    intro cm hcm
    rw [hcommits] at hcm
    cases hs : st1.synced_commits.contains cm.id with
    | true => rfl
    | false =>
      have helig : commitEligible st1.polls now cm = commitEligible st.polls now cm :=
        commitEligible_congr _ _ now cm (hEnds cm.poll_id)
      cases he : commitEligible st.polls now cm with
      | false =>
        rw [helig, he]
        rfl
      | true =>
        cases hs0 : st.synced_commits.contains cm.id with
        | true =>
          have hc1 := hmono cm.id hs0
          rw [hc1] at hs
          cases hs
        | false =>
          have hP : ((! st.synced_commits.contains cm.id) &&
              commitEligible st.polls now cm) = true := by
            rw [hs0, he]
            rfl
          have hc1 := hmarked cm hcm hP
          rw [hc1] at hs
          cases hs
  have hpend2 : st1.commits_to_sync now 200 = [] :=
    commitsToSyncAux_nil st1.polls st1.synced_commits now 200 st1.commits 0 hall
  have hfin : (syncRevealsOnce o2 st1 now).2 =
      ((groupByPoll (st1.commits_to_sync now 200)).foldl (tickStep o2)
        (st1, 0, ([] : List (Int × Nat)))).2.2 := rfl
  rw [hfin, hpend2]
  rfl

/-- Witness for C6 (amended): in the 25-commitment scenario with an
always-succeeding collaborator, the second tick issues zero calls. -/
theorem C6_witness :
    (syncRevealsOnce failOracle
      (syncRevealsOnce (fun _ => Except.ok none) c5State 50).1 50).2 = [] :=
  C6_second_tick_no_calls (fun _ => Except.ok none) failOracle c5State 50
    (fun _ => rfl) (by decide)

end Veilcast
